import Mathlib

/-!
Verification development for the easycsv CSV-decoding library.

The definitions below are a shallow embedding of the Go sources:
`encode.go` (value converters), `option.go` (reader options) and the main
reader file (`Reader`, `Loop`, `Read`, `ReadAll`, `Done`, the struct/slice
row decoders and struct-tag analysis).

Modelling conventions:
- Machine integers are modelled as `Nat`/`Int` with explicit bounds
  (`2 ^ bitSize`), mirroring `strconv`'s cutoff checks.
- Go maps are modelled as association lists kept in insertion order; Go map
  iteration order is unspecified, so the association list fixes one concrete
  interleaving (insertion order) of the source's `range` loops.
- Fallible Go functions returning `(value, error)` are modelled with
  `Except` or with an explicit `Option GoErr` component when the partially
  written output value is observable (as in `structRowDecoder.decode`).
- `error` values compared by identity in Go (`io.EOF`, the `Break`
  sentinel) are distinct constructors of `GoErr`; other errors carry their
  message string.
- Strings are treated as sequences of characters; the CSV fields relevant
  here are ASCII, where Go's byte-wise processing agrees.
- The platform word size (`strconv.IntSize`) is fixed at 64.
- Floating-point field kinds (`float32`/`float64`, parsed by
  `strconv.ParseFloat`) are outside the embedded fragment; types that are
  not embedded scalar kinds appear as opaque named types.
-/

deriving instance DecidableEq for Except

namespace EasyCsv

/-- Scalar kinds of the embedded fragment (reflect.Kind of supported field
types, minus the floating-point kinds which are not embedded). -/
inductive GoKind where
  | int | int8 | int16 | int32 | int64
  | uint | uint8 | uint16 | uint32 | uint64
  | bool | string
  deriving DecidableEq, Repr

/-- Non-function Go types as seen by the decoder: embedded scalar kinds,
the `error` interface type, and opaque named types (e.g. `time.Time`,
`float32`). -/
inductive GoScalar where
  | kind (k : GoKind)
  | errorT
  | named (s : String)
  deriving DecidableEq, Repr

/-- Go types: either a non-function type or a function type with its
parameter and result type lists. Function types whose parameters or
results are themselves functions never occur in this code base, so the
lists range over `GoScalar`. -/
inductive GoType where
  | scalar (t : GoScalar)
  | funcT (ins : List GoScalar) (outs : List GoScalar)
  deriving DecidableEq, Repr

/-- Shorthand for the common case of a scalar-kind field type. -/
def GoType.ofKind (k : GoKind) : GoType := .scalar (.kind k)

/-- Rendering of a non-function type by Go's `%v` verb. -/
def goScalarString : GoScalar → String
  | .kind .int => "int"
  | .kind .int8 => "int8"
  | .kind .int16 => "int16"
  | .kind .int32 => "int32"
  | .kind .int64 => "int64"
  | .kind .uint => "uint"
  | .kind .uint8 => "uint8"
  | .kind .uint16 => "uint16"
  | .kind .uint32 => "uint32"
  | .kind .uint64 => "uint64"
  | .kind .bool => "bool"
  | .kind .string => "string"
  | .errorT => "error"
  | .named s => s

/-- Rendering of a type by Go's `%v` verb, as used in error messages. -/
def goTypeString : GoType → String
  | .scalar t => goScalarString t
  | .funcT _ _ => "func"

/-- Go's `%q` verb on the strings appearing in this development (no
characters needing escapes occur in CSV field names or numeric fields). -/
def goQuote (s : String) : String := "\"" ++ s ++ "\""

/-- Runtime values stored into decoded records. Signed integer kinds carry
an `Int`, unsigned kinds a `Nat`; `otherV t` is the (opaque) zero value of a
non-embedded type `t`. -/
inductive GoValue where
  | intV (i : Int)
  | uintV (n : Nat)
  | boolV (b : Bool)
  | strV (s : String)
  | otherV (t : GoType)
  deriving DecidableEq, Repr

/-- Go `error` values: `io.EOF`, the `easycsv.Break` sentinel (compared by
identity in the source), and message-carrying errors. -/
inductive GoErr where
  | eof
  | brk
  | msg (s : String)
  deriving DecidableEq, Repr

/-- The `Error()` method: the message rendered by each error value. -/
def GoErr.errorString : GoErr → String
  | .eof => "EOF"
  | .brk => "break"
  | .msg s => s

/-- A resolved converter: the Go `func(string) (T, error)` shape. On error
the accompanying value is never read by the decoders, so `Except` is a
faithful model. -/
def Conv : Type := String → Except GoErr GoValue

/-- The error component of an `Except`, for stating facts about fallible
results whose success values contain functions. -/
def exceptErr : Except ε α → Option ε
  | .error e => some e
  | .ok _ => none

/-- A converter that is never reached on well-formed decoders (Go would
panic on an out-of-range converter index). -/
def dummyConv : Conv := fun _ => .error (.msg "missing converter")

/-! ## strconv model

`strconv.ParseUint` / `ParseInt` / `ParseBool` with Go's documented
semantics: explicit bases 2..36, base 0 auto-detection (`0b`/`0o`/`0x`
prefixes, a bare leading `0` meaning octal), underscore digit separators
for base 0 only, and range checking against `2 ^ bitSize`.
-/

/-- Go's byte-wise `lower` helper (`c | ('x' - 'X')`). Only reached on
ASCII input in this development. -/
def goLower (c : Char) : Char :=
  Char.ofNat (c.toNat ||| 32)

/-- Error kinds of `strconv` numeric parsing (`ErrSyntax` / `ErrRange`). -/
inductive NumErrKind where
  | syntaxE
  | rangeE
  deriving DecidableEq, Repr

/-- The `underscoreOK` check of `strconv`: underscores must separate
digits (or follow a base prefix) as in Go integer literals. `saw` tracks
the class of the previous character: `0` a digit or base prefix, `_` an
underscore, `!` anything else, `^` the start. -/
def underscoreOKLoop (hex : Bool) : Char → List Char → Bool
  | saw, [] => saw != '_'
  | saw, c :: rest =>
    if ('0' ≤ c ∧ c ≤ '9') ∨ (hex ∧ 'a' ≤ goLower c ∧ goLower c ≤ 'f') then
      underscoreOKLoop hex '0' rest
    else if c = '_' then
      if saw ≠ '0' then false else underscoreOKLoop hex '_' rest
    else if saw = '_' then false
    else underscoreOKLoop hex '!' rest

/-- The `underscoreOK` entry point: strip an optional sign, then an
optional `0b`/`0o`/`0x` prefix (which counts as a digit), then run the
digit/underscore class scan. -/
def underscoreOK (s : List Char) : Bool :=
  let s :=
    match s with
    | c :: rest => if c = '-' ∨ c = '+' then rest else c :: rest
    | [] => []
  match s with
  | c0 :: c1 :: rest =>
    if c0 = '0' ∧ (goLower c1 = 'b' ∨ goLower c1 = 'o' ∨ goLower c1 = 'x') then
      underscoreOKLoop (goLower c1 = 'x') '0' rest
    else
      underscoreOKLoop false '^' (c0 :: c1 :: rest)
  | s => underscoreOKLoop false '^' s

/-- The digit loop of `ParseUint`: accumulate `n * base + d`, skipping
underscores when `base0` is set, reporting a syntax error on an invalid
digit and a range error as soon as the value exceeds `maxVal`. Returns the
value together with a flag recording whether underscores were seen. -/
def parseUintDigits (base maxVal : Nat) (base0 : Bool) :
    List Char → Nat → Bool → Except NumErrKind (Nat × Bool)
  | [], n, us => .ok (n, us)
  | c :: rest, n, us =>
    if c = '_' ∧ base0 then
      parseUintDigits base maxVal base0 rest n true
    else
      let d? : Except NumErrKind Nat :=
        if '0' ≤ c ∧ c ≤ '9' then .ok (c.toNat - '0'.toNat)
        else if 'a' ≤ goLower c ∧ goLower c ≤ 'z' then
          .ok ((goLower c).toNat - 'a'.toNat + 10)
        else .error .syntaxE
      match d? with
      | .error e => .error e
      | .ok d =>
        if d ≥ base then .error .syntaxE
        else
          let n1 := n * base + d
          if n1 > maxVal then .error .rangeE
          else parseUintDigits base maxVal base0 rest n1 us

/-- Core of `strconv.ParseUint` (without error-message formatting):
empty-string and base checks, base-0 prefix detection, digit loop, final
underscore validation. `bitSize = 0` selects the platform word size
(fixed at 64 in this model). -/
def parseUintCore (s : String) (base bitSize : Nat) : Except NumErrKind Nat :=
  let s0 := s.data
  if s0 = [] then .error .syntaxE
  else if ¬ (base = 0 ∨ (2 ≤ base ∧ base ≤ 36)) then .error .syntaxE
  else
    let base0 := base = 0
    let (base, digits) :=
      if base ≠ 0 then (base, s0)
      else
        match s0 with
        | '0' :: c1 :: c2 :: rest =>
          if goLower c1 = 'b' then (2, c2 :: rest)
          else if goLower c1 = 'o' then (8, c2 :: rest)
          else if goLower c1 = 'x' then (16, c2 :: rest)
          else (8, c1 :: c2 :: rest)
        | '0' :: rest => (8, rest)
        | _ => (10, s0)
    let bs := if bitSize = 0 then 64 else bitSize
    let maxVal := 2 ^ bs - 1
    match parseUintDigits base maxVal base0 digits 0 false with
    | .error e => .error e
    | .ok (n, us) =>
      if us ∧ ¬ underscoreOK s0 then .error .syntaxE
      else .ok n

/-- Core of `strconv.ParseInt`: strip the sign, parse the magnitude with
`parseUintCore`, and apply the signed cutoff checks. A range error from
the magnitude parse leaves the capped value `2 ^ bitSize - 1` in place,
exactly as `ParseInt` continues with `ParseUint`'s capped result. -/
def parseIntCore (s : String) (base bitSize : Nat) : Except NumErrKind Int :=
  if s.data = [] then .error .syntaxE
  else
    let (neg, rest) :=
      match s.data with
      | '+' :: r => (false, String.mk r)
      | '-' :: r => (true, String.mk r)
      | _ => (false, s)
    let bs := if bitSize = 0 then 64 else bitSize
    let un? : Except NumErrKind Nat := parseUintCore rest base bitSize
    match un? with
    | .error .syntaxE => .error .syntaxE
    | other =>
      let un : Nat := match other with
        | .ok u => u
        | .error _ => 2 ^ bs - 1
      let cutoff : Nat := 2 ^ (bs - 1)
      if ¬ neg ∧ un ≥ cutoff then .error .rangeE
      else if neg ∧ un > cutoff then .error .rangeE
      else .ok (if neg then -(un : Int) else (un : Int))

/-- Message-formatting wrapper matching `strconv`'s `*NumError` rendering. -/
def numErrMsg (fn s : String) : NumErrKind → GoErr
  | .syntaxE => .msg ("strconv." ++ fn ++ ": parsing " ++ goQuote s ++ ": invalid syntax")
  | .rangeE => .msg ("strconv." ++ fn ++ ": parsing " ++ goQuote s ++ ": value out of range")

/-- `strconv.ParseUint` with Go's error messages. -/
def parseUint (s : String) (base bitSize : Nat) : Except GoErr Nat :=
  (parseUintCore s base bitSize).mapError (numErrMsg "ParseUint" s)

/-- `strconv.ParseInt` with Go's error messages. -/
def parseInt (s : String) (base bitSize : Nat) : Except GoErr Int :=
  (parseIntCore s base bitSize).mapError (numErrMsg "ParseInt" s)

/-- `strconv.ParseBool`. -/
def parseBool (s : String) : Except GoErr Bool :=
  if s = "1" ∨ s = "t" ∨ s = "T" ∨ s = "true" ∨ s = "TRUE" ∨ s = "True" then .ok true
  else if s = "0" ∨ s = "f" ∨ s = "F" ∨ s = "false" ∨ s = "FALSE" ∨ s = "False" then .ok false
  else .error (numErrMsg "ParseBool" s .syntaxE)

/-! ## Association-list model of Go maps

Go maps are modelled as association lists with unique keys: lookup finds
the first matching key, insertion replaces the value of an existing key in
place (so iteration order is insertion order, one fixed realization of
Go's unspecified map iteration order), deletion removes the key.
-/

/-- Map lookup (`m[k]` with the `ok` flag as `Option`). -/
def alistGet [DecidableEq α] (l : List (α × β)) (k : α) : Option β :=
  (l.find? fun p => p.1 = k).map (·.2)

/-- Map update `m[k] = v`. -/
def alistInsert [DecidableEq α] (l : List (α × β)) (k : α) (v : β) : List (α × β) :=
  match l with
  | [] => [(k, v)]
  | (a, b) :: rest =>
    if a = k then (k, v) :: rest else (a, b) :: alistInsert rest k v

/-- Map deletion `delete(m, k)`. -/
def alistErase [DecidableEq α] (l : List (α × β)) (k : α) : List (α × β) :=
  match l with
  | [] => []
  | (a, b) :: rest =>
    if a = k then rest else (a, b) :: alistErase rest k

/-! ## Runtime model of `interface{}` converter values (`encode.go`) -/

/-- A Go function value as seen through `reflect`: its parameter and
result types, plus its behaviour when called on a string. The behaviour
is only ever invoked after signature validation. -/
structure GoFunc where
  ins : List GoScalar
  outs : List GoScalar
  call : Conv

/-- A non-nil `interface{}` value passed as a custom decoder: either a
function or a non-function value of some type. -/
inductive GoAny where
  | func (f : GoFunc)
  | nonFunc (t : GoType)

/-- The `reflect.Type` of an `interface{}` value. -/
def GoAny.type : GoAny → GoType
  | .func f => .funcT f.ins f.outs
  | .nonFunc t => t

/-- Calling an `interface{}` value as a converter (only reached after
validation established it is a function of the right shape). -/
def goAnyCall : GoAny → Conv
  | .func f => f.call
  | .nonFunc _ => dummyConv

/-- Whether a type's `reflect.Kind` is `String`. Named types with a
string underlying type are not embedded, so only the `string` kind
qualifies. -/
def isStringKind : GoScalar → Bool
  | .kind .string => true
  | _ => false

/-- Reader options (`option.go`), restricted to the fields the decoding
engine reads. `Comma`, `Comment`, `LazyQuotes` and the field-count policy
configure the external `encoding/csv` tokenizer and are outside the
embedding. `Decoders` distinguishes a missing map (`none`) from a present
map, and a present key mapped to Go `nil` (`some none` as the value).
`TypeDecoders` entries are the non-nil values used by this code base. -/
structure Opt where
  decoders : Option (List (String × Option GoAny)) := none
  typeDecoders : Option (List (GoType × GoAny)) := none

/-- `createIntConverter` of `encode.go`: a converter per integer kind,
each calling `strconv.ParseInt`/`ParseUint` with the given base and the
kind's bit size (`0` selecting the platform word size for `int`/`uint`).
The `uint64` case passes bit size 32, exactly as the source does.
Non-integer kinds yield no converter. -/
def createIntConverter (t : GoType) (base : Nat) : Option Conv :=
  match t with
  | .scalar (.kind .int) => some fun s => (parseInt s base 0).map .intV
  | .scalar (.kind .int8) => some fun s => (parseInt s base 8).map .intV
  | .scalar (.kind .int16) => some fun s => (parseInt s base 16).map .intV
  | .scalar (.kind .int32) => some fun s => (parseInt s base 32).map .intV
  | .scalar (.kind .int64) => some fun s => (parseInt s base 64).map .intV
  | .scalar (.kind .uint) => some fun s => (parseUint s base 0).map .uintV
  | .scalar (.kind .uint8) => some fun s => (parseUint s base 8).map .uintV
  | .scalar (.kind .uint16) => some fun s => (parseUint s base 16).map .uintV
  | .scalar (.kind .uint32) => some fun s => (parseUint s base 32).map .uintV
  | .scalar (.kind .uint64) => some fun s => (parseUint s base 32).map .uintV
  | _ => none

/-- The `predefinedDecoders` table of `encode.go`: named integer-base
encodings `hex`, `oct`, `deci`. -/
def predefinedDecoders (enc : String) : Option (GoType → Option Conv) :=
  if enc = "hex" then some (fun t => createIntConverter t 16)
  else if enc = "oct" then some (fun t => createIntConverter t 8)
  else if enc = "deci" then some (fun t => createIntConverter t 10)
  else none

/-- `validateTypeDecoder` of `encode.go`: sequential signature checks for
a per-type custom decoder, reporting only the first failure. -/
def validateTypeDecoder (t : GoType) (conv : GoAny) : Option GoErr :=
  match conv with
  | .nonFunc t' =>
    some (.msg ("The decoder for " ++ goTypeString t ++ " must be a function but " ++
      goTypeString t'))
  | .func f =>
    if f.ins.length ≠ 1 ∨ f.outs.length ≠ 2 then
      some (.msg ("The decoder for " ++ goTypeString t ++
        " must receive one arguments and returns two values"))
    else
      match f.ins, f.outs with
      | [in0], [out0, out1] =>
        if ¬ isStringKind in0 then
          some (.msg ("The decoder for " ++ goTypeString t ++
            " must receive a string as the first arg, but receives " ++ goScalarString in0))
        else if GoType.scalar out0 ≠ t ∨ out1 ≠ .errorT then
          some (.msg ("The decoder for " ++ goTypeString t ++ " must return (" ++
            goTypeString t ++ ", error), but returned (" ++ goScalarString out0 ++ ", " ++
            goScalarString out1 ++ ")"))
        else none
      | _, _ => none

/-- `createDefaultConverter` of `encode.go` on the embedded fragment:
integer kinds via `createIntConverter` with base 0 (auto-base), `bool` via
`strconv.ParseBool`, identity for `string`. The `float32`/`float64` cases
(`strconv.ParseFloat`) are outside the embedding; all remaining types
yield no converter, as in the source's `default` branch. -/
def createDefaultConverter (t : GoType) : Option Conv :=
  match createIntConverter t 0 with
  | some c => some c
  | none =>
    match t with
    | .scalar (.kind .bool) => some fun s => (parseBool s).map .boolV
    | .scalar (.kind .string) => some fun s => .ok (.strV s)
    | _ => none

/-- `createConverterFromType` of `encode.go`: a per-exact-type override
from `Option.TypeDecoders` (validated) when present, otherwise the
default converter (`.ok none` when the type is unsupported). -/
def createConverterFromType (opt : Opt) (t : GoType) : Except GoErr (Option Conv) :=
  match opt.typeDecoders with
  | some tds =>
    match alistGet tds t with
    | some conv =>
      match validateTypeDecoder t conv with
      | some e => .error e
      | none => .ok (some (goAnyCall conv))
    | none => .ok (createDefaultConverter t)
  | none => .ok (createDefaultConverter t)

/-! ## Struct-shape analysis (`parseStructTag`, `newStructDecoder`) -/

/-- A struct field as seen through `reflect.StructField`: its Go name,
type, the `name:`, `index:` and `enc:` struct tags (empty string when
absent), and whether the field is exported (settable). -/
structure Field where
  fname : String
  ftype : GoType
  tagName : String := ""
  tagIndex : String := ""
  tagEnc : String := ""
  exported : Bool := true

/-- `validateCustomConverter`: checks the signature of a custom
per-encoding decoder against the field it will feed, appending one message
per violation to `errs` and returning the accumulated list with the
overall flag. Mirrors the source's two independent check groups
(parameters, then results), each an `if`/`else if` chain. -/
def validateCustomConverter (conv : GoAny) (enc : String) (field : Field)
    (errs : List String) : List String × Bool :=
  match conv with
  | .nonFunc _ =>
    (errs ++ ["The custom decoder for Encoding " ++ goQuote enc ++ " must be a function"],
      false)
  | .func f =>
    let (errs, ok) :=
      if f.ins.length ≠ 1 then
        (errs ++ ["The custom decoder for Encoding " ++ goQuote enc ++
          " must receive an arg, but receives " ++ toString f.ins.length ++ " args"], false)
      else if ¬ isStringKind (f.ins.getD 0 .errorT) then
        (errs ++ ["The custom decoder for Encoding " ++ goQuote enc ++
          " must receive a string, but receives " ++
          goScalarString (f.ins.getD 0 .errorT)], false)
      else (errs, true)
    if f.outs.length ≠ 2 then
      (errs ++ ["The custom decoder for Encoding " ++ goQuote enc ++
        " must return two values, but returns " ++ toString f.outs.length ++ " values"],
        false)
    else
      let out0 := f.outs.getD 0 .errorT
      let out1 := f.outs.getD 1 .errorT
      let (errs, ok) :=
        if GoType.scalar out0 ≠ field.ftype then
          (errs ++ ["The type of field " ++ goQuote field.fname ++ " is " ++
            goTypeString field.ftype ++ ", but enc " ++ goQuote enc ++ " returns " ++
            goQuote (goScalarString out0)], false)
        else (errs, ok)
      if out1 ≠ .errorT then
        (errs ++ ["The second return value of the custom decoder for " ++ goQuote enc ++
          " must be error"], false)
      else (errs, ok)

/-- The accumulator threaded through `parseStructTag`: the name→field and
index→field binding maps, the per-field converters, and the accumulated
tag errors, all in field declaration order. -/
structure TagAcc where
  nameMap : List (String × Nat) := []
  idxMap : List (Nat × Nat) := []
  converters : List Conv := []
  tagErrors : List String := []

/-- The `strconv.Atoi` call of `parseStructTag` together with the
source's non-negativity check: the parsed index as a `Nat`, or `none`
when parsing fails or the value is negative. -/
def parsedIndexTag (s : String) : Option Nat :=
  match parseInt s 10 0 with
  | .error _ => none
  | .ok i => if i < 0 then none else some i.toNat

/-- The predefined-decoder arm of `parseStructTag`: when the encoding
name has no (non-nil) entry in `Option.Decoders`, consult
`predefinedDecoders`; an unknown name appends the "not defined" error and
triggers the early `return` (third component), a known name unsupported
for the field type appends the "does not support" error. -/
def parseStructTagPre (enc : String) (field : Field) (errs : List String) :
    Option Conv × List String × Bool :=
  match predefinedDecoders enc with
  | some pre =>
    match pre field.ftype with
    | some c => (some c, errs, false)
    | none =>
      (none, errs ++ ["Encoding " ++ goQuote enc ++ " does not support " ++
        goTypeString field.ftype], false)
  | none =>
    (none, errs ++ ["Encoding " ++ goQuote enc ++ " is not defined"], true)

/-- The `enc:`-tag stage of `parseStructTag`: the candidate converter
(`none` when the tag is absent or the custom decoder is invalid), the
errors accumulated so far, and whether the source hit the early `return`
of the "not defined" arm. -/
def parseStructTagEnc (opt : Opt) (field : Field) (errs : List String) :
    Option Conv × List String × Bool :=
  if field.tagEnc ≠ "" then
    match opt.decoders with
    | some d =>
      match alistGet d field.tagEnc with
      | some (some a) =>
        let v := validateCustomConverter a field.tagEnc field errs
        (if v.2 then some (goAnyCall a) else none, v.1, false)
      | _ => parseStructTagPre field.tagEnc field errs
    | none => parseStructTagPre field.tagEnc field errs
  else (none, errs, false)

/-- The tail of `parseStructTag` after the `enc:` stage: fall back to
per-type resolution when no converter was produced yet, guard with the
"Unexpected field type" error, then append the converter and record the
binding in the name map or (after `Atoi` and the non-negativity check)
the index map. -/
def parseStructTagFinish (opt : Opt) (field : Field) (fieldIdx : Nat) (acc : TagAcc)
    (conv0 : Option Conv) (errs1 : List String) : TagAcc :=
  let p :=
    match conv0 with
    | some c => (some c, errs1)
    | none =>
      match createConverterFromType opt field.ftype with
      | .error e => ((none : Option Conv), errs1 ++ [e.errorString])
      | .ok co => (co, errs1)
  match p.1 with
  | none =>
    { acc with tagErrors := p.2 ++
        ["Unexpected field type for " ++ field.fname ++ ": " ++
          goTypeString field.ftype] }
  | some c =>
    let acc := { acc with converters := acc.converters ++ [c], tagErrors := p.2 }
    if field.tagName ≠ "" then
      { acc with nameMap := alistInsert acc.nameMap field.tagName fieldIdx }
    else
      match parsedIndexTag field.tagIndex with
      | none =>
        { acc with tagErrors := acc.tagErrors ++
            ["Failed to parse index of field " ++ field.fname ++ ": " ++
              goQuote field.tagIndex] }
      | some i => { acc with idxMap := alistInsert acc.idxMap i fieldIdx }

/-- `parseStructTag`: analyse one struct field. Exactly one of the
`name:`/`index:` tags must be present; an `enc:` tag selects a custom
decoder (validated), a predefined base decoder, or fails
(`parseStructTagEnc`); otherwise (or when the custom decoder is invalid)
the converter falls back to the per-type resolution
(`parseStructTagFinish`). Errors are appended to the accumulator; the
converter, when one is found, is appended and the field is recorded in
the name map or the index map. -/
def parseStructTag (opt : Opt) (field : Field) (fieldIdx : Nat) (acc : TagAcc) : TagAcc :=
  if field.tagName = "" ∧ field.tagIndex = "" then
    { acc with tagErrors := acc.tagErrors ++
        ["Please specify name or index to the struct field: " ++ field.fname] }
  else if field.tagName ≠ "" ∧ field.tagIndex ≠ "" then
    { acc with tagErrors := acc.tagErrors ++
        ["Please specify name or index to the struct field: " ++ field.fname] }
  else
    let s := parseStructTagEnc opt field acc.tagErrors
    if s.2.2 then { acc with tagErrors := s.2.1 }
    else parseStructTagFinish opt field fieldIdx acc s.1 s.2.1

/-! ## Row decoders -/

/-- The zero `GoValue` of a type (`reflect.New(t).Elem()`). -/
def zeroValue : GoType → GoValue
  | .scalar (.kind .int) | .scalar (.kind .int8) | .scalar (.kind .int16)
  | .scalar (.kind .int32) | .scalar (.kind .int64) => .intV 0
  | .scalar (.kind .uint) | .scalar (.kind .uint8) | .scalar (.kind .uint16)
  | .scalar (.kind .uint32) | .scalar (.kind .uint64) => .uintV 0
  | .scalar (.kind .bool) => .boolV false
  | .scalar (.kind .string) => .strV ""
  | t => .otherV t

/-- The zero record of a struct type: one zero value per field. -/
def zeroRec (fieldTypes : List GoType) : List GoValue :=
  fieldTypes.map zeroValue

/-- `structRowDecoder`: the decoding plan for a struct shape. Exactly one
of `names`/`indice` is non-`none` after construction (`none` models a nil
Go map); `consumeHeader` turns the pending `names` map into `indice`. -/
structure StructRowDecoder where
  fieldTypes : List GoType
  converters : List Conv
  names : Option (List (String × Nat))
  indice : Option (List (Nat × Nat))

/-- `structRowDecoder.needHeader`: true while the name→field map is
pending (a non-nil `names` map). -/
def StructRowDecoder.needHeader (d : StructRowDecoder) : Bool :=
  d.names.isSome

/-- `structRowDecoder.consumeHeader`: scan the header row left to right,
recording the column position of every pending field name (first
occurrence wins) and deleting it from the pending map. Any names left
over produce the "did not appear in the first line" error, with the
decoder left holding the partially built `indice` map and the leftover
names. -/
def StructRowDecoder.consumeHeader (d : StructRowDecoder) (header : List String) :
    StructRowDecoder × Option GoErr :=
  let (names, indice) :=
    header.enum.foldl
      (fun (p : List (String × Nat) × List (Nat × Nat)) ic =>
        match alistGet p.1 ic.2 with
        | none => p
        | some idx => (alistErase p.1 ic.2, alistInsert p.2 ic.1 idx))
      (d.names.getD [], [])
  let d := { d with indice := some indice }
  if names.length ≠ 0 then
    ({ d with names := some names },
      some (.msg (String.intercalate ", " (names.map (·.1)) ++
        " did not appear in the first line")))
  else
    ({ d with names := none }, none)

/-- The binding loop of `structRowDecoder.decode`: process the
`(column, field)` pairs of the resolved plan in order over the row,
failing on an out-of-range column or a converter error and otherwise
setting the field in the output record. Returns the output record as
written so far together with the error, mirroring the in-place writes of
the source (the record passed in is the `out` argument's current value;
`Loop` and `ReadAll` pass a fresh zero record). -/
def decodeEntries (converters : List Conv) (row : List String) :
    List (Nat × Nat) → List GoValue → List GoValue × Option GoErr
  | [], out => (out, none)
  | (i, j) :: rest, out =>
    if i ≥ row.length then
      (out, some (.msg ("Accessed index " ++ toString i ++
        " though the size of the row is " ++ toString row.length)))
    else
      match (converters.getD j dummyConv) (row.getD i "") with
      | .error e => (out, some e)
      | .ok v => decodeEntries converters row rest (out.set j v)

/-- `structRowDecoder.decode`: run the binding loop over the resolved
`indice` map (a nil map iterates zero times). -/
def StructRowDecoder.decode (d : StructRowDecoder) (out : List GoValue)
    (row : List String) : List GoValue × Option GoErr :=
  decodeEntries d.converters row (d.indice.getD []) out

/-- The element loop of `sliceRowDecoder.decode`: convert every element
of the row, accumulating into a fresh slice; the first converter failure
aborts and leaves the output untouched (the source only stores the fresh
slice into `out` after the loop). -/
def sliceDecodeElems (conv : Conv) (out0 : List GoValue) :
    List String → List GoValue → List GoValue × Option GoErr
  | [], acc => (acc, none)
  | e :: rest, acc =>
    match conv e with
    | .error err => (out0, some err)
    | .ok v => sliceDecodeElems conv out0 rest (acc ++ [v])

/-- A decoded record: a struct record (one value per field) or a slice
record (one value per row element). -/
inductive DecodedRec where
  | strukt (fields : List GoValue)
  | slice (elems : List GoValue)
  deriving DecidableEq, Repr

/-- `rowDecoder`: the interface implemented by the struct and slice
decoders. The slice decoder carries its element converter. -/
inductive RowDecoder where
  | strukt (d : StructRowDecoder)
  | slice (conv : Conv)

/-- `needHeader` of the `rowDecoder` interface. -/
def RowDecoder.needHeader : RowDecoder → Bool
  | .strukt d => d.needHeader
  | .slice _ => false

/-- `consumeHeader` of the `rowDecoder` interface (a no-op for slice
decoders). -/
def RowDecoder.consumeHeader : RowDecoder → List String → RowDecoder × Option GoErr
  | .strukt d, header =>
    let (d, e) := d.consumeHeader header
    (.strukt d, e)
  | .slice c, _ => (.slice c, none)

/-- `decode` of the `rowDecoder` interface, applied to a fresh zero
output value (`reflect.New`), as `Loop` and `ReadAll` do per row. Returns
the output value after the call (partial on error) and the error. -/
def RowDecoder.decode : RowDecoder → List String → DecodedRec × Option GoErr
  | .strukt d, row =>
    let (fields, e) := d.decode (zeroRec d.fieldTypes) row
    (.strukt fields, e)
  | .slice c, row =>
    let (elems, e) := sliceDecodeElems c [] row []
    (.slice elems, e)

/-- `newStructDecoder`: reject empty and unexported-field structs, analyse
every field with `parseStructTag` in declaration order, add the mixed
binding-modes error, and either fail with the newline-joined error list
or build the decoder, keeping only the non-empty binding map. -/
def newStructDecoder (opt : Opt) (fields : List Field) :
    Except GoErr StructRowDecoder :=
  if fields.length = 0 then .error (.msg "The struct has no field")
  else
    let unexported := (fields.filter fun f => ¬ f.exported).map Field.fname
    if unexported.length ≠ 0 then
      .error (.msg ("The struct passed to Loop must not have unexported fields: " ++
        String.intercalate ", " unexported))
    else
      let acc := fields.enum.foldl (fun acc p => parseStructTag opt p.2 p.1 acc) {}
      let tagErrors :=
        if acc.nameMap.length ≠ 0 ∧ acc.idxMap.length ≠ 0 then
          acc.tagErrors ++ ["Fields with name and fields with index are mixed"]
        else acc.tagErrors
      if tagErrors.length ≠ 0 then .error (.msg (String.intercalate "\n" tagErrors))
      else if acc.nameMap.length ≠ 0 then
        .ok ⟨fields.map Field.ftype, acc.converters, some acc.nameMap, none⟩
      else
        .ok ⟨fields.map Field.ftype, acc.converters, none, some acc.idxMap⟩

/-- `newSliceDecoder`: resolve one converter for the element type. -/
def newSliceDecoder (opt : Opt) (elem : GoType) : Except GoErr RowDecoder :=
  match createConverterFromType opt elem with
  | .error e => .error e
  | .ok none =>
    .error (.msg ("Failed to create a converter for []" ++ goTypeString elem))
  | .ok (some c) => .ok (.slice c)

/-- The target record shape handed to `newDecoder`: a struct with its
field list, or a slice with its element type. -/
inductive TargetShape where
  | strukt (fields : List Field)
  | slice (elem : GoType)

/-- `newDecoder`: dispatch on the target shape. -/
def newDecoder (opt : Opt) : TargetShape → Except GoErr RowDecoder
  | .strukt fields => (newStructDecoder opt fields).map .strukt
  | .slice elem => newSliceDecoder opt elem

/-! ## The `Reader` session

The underlying `csv.Reader` is the black-box row producer: it is modelled
by the list of rows it will still deliver, with `io.EOF` produced once
the list is exhausted. The optional closer is modelled by the error its
`Close` returns (`some none` = a closer whose `Close` succeeds), together
with a count of how many times it has been closed.
-/

/-- The `easycsv.Reader` state. -/
structure Reader where
  opt : Opt := {}
  rows : List (List String) := []
  closer : Option (Option GoErr) := none
  closeCount : Nat := 0
  done : Bool := false
  err : Option GoErr := none
  lineno : Nat := 0
  firstLine : Option (List String) := none
  cur : List String := []

/-- `NewReader` (options already merged and valid). -/
def NewReader (rows : List (List String)) (opt : Opt) : Reader :=
  { opt := opt, rows := rows }

/-- `NewReadCloser`: as `NewReader`, with a closer whose `Close` will
return `closeErr`. -/
def NewReadCloser (rows : List (List String)) (opt : Opt) (closeErr : Option GoErr) :
    Reader :=
  { opt := opt, rows := rows, closer := some closeErr }

/-- `Reader.readLine`: pull one row from the producer; at end of input
record `io.EOF`, otherwise advance `cur`, the line counter and (on the
first line) `firstLine`. A pre-existing error is left in place on a
successful read, exactly as the source only assigns `r.err` on failure. -/
def Reader.readLine (r : Reader) : Reader :=
  match r.rows with
  | [] => { r with err := some .eof }
  | line :: rest =>
    let ln := r.lineno + 1
    { r with rows := rest, cur := line, lineno := ln,
             firstLine := if ln = 1 then some line else r.firstLine }

/-- `Reader.LineNumber`. -/
def Reader.LineNumber (r : Reader) : Nat := r.lineno

/-- `Reader.nonEOFError`: the recorded error with `io.EOF` mapped to no
error. -/
def Reader.nonEOFError (r : Reader) : Option GoErr :=
  match r.err with
  | none => none
  | some .eof => none
  | some e => some e

/-- The `if r.closer != nil` block of `Reader.Done`: close the closer
(counted), recording its result only when no error other than `io.EOF`
is pending. -/
def Reader.closeStep (r : Reader) : Reader :=
  match r.closer with
  | none => r
  | some cerr =>
    let r := { r with closeCount := r.closeCount + 1 }
    if r.err = none ∨ r.err = some .eof then { r with err := cerr } else r

/-- `Reader.Done`: on the first call close the owned closer, recording
its result only when no error other than `io.EOF` is pending, and mark
the session done; later calls return the same final error without
re-closing. -/
def Reader.Done (r : Reader) : Reader × Option GoErr :=
  if r.done then (r, r.nonEOFError)
  else
    let r1 := (Reader.closeStep { r with done := true })
    (r1, r1.nonEOFError)

/-- Finalization helper shared by the `Loop`/`ReadAll` exits (the `defer
Done` of the source): finalize and return the session, `Done`'s error and
the produced records. -/
def finishDone (r : Reader) (handed : List DecodedRec) :
    Reader × Option GoErr × List DecodedRec :=
  let p := r.Done
  (p.1, p.2, handed)

theorem readLine_rows_lt (r : Reader) (h : (r.readLine).err = none) :
    (r.readLine).rows.length < r.rows.length := by
  unfold Reader.readLine at h ⊢
  match hr : r.rows with
  | [] => simp [hr] at h
  | line :: rest => simp [hr]

/-- The row loop of `Reader.ReadAll`, structured over explicit fuel so
that the recursion is structural (every iteration consumes one row, so
`rows.length + 1` steps always suffice — see `readAllLoopF_fuel`): read a
row, decode it, append the decoded record to the output slice, and only
then inspect the decode error (this is the source's order:
`v.Set(reflect.Append(...))` precedes the `err != nil` check). -/
def readAllLoopF (dec : RowDecoder) : Nat → Reader → List DecodedRec →
    Reader × List DecodedRec
  | 0, r, acc => (r, acc)
  | fuel + 1, r, acc =>
    let r' := r.readLine
    if r'.err.isSome then (r', acc)
    else
      let d := dec.decode r'.cur
      let acc := acc ++ [d.1]
      match d.2 with
      | some e => ({ r' with err := some e }, acc)
      | none => readAllLoopF dec fuel r' acc

/-- The row loop of `Reader.ReadAll`. -/
def readAllLoop (dec : RowDecoder) (r : Reader) (acc : List DecodedRec) :
    Reader × List DecodedRec :=
  readAllLoopF dec (r.rows.length + 1) r acc

/-- `Reader.ReadAll` for a valid slice target of shape `t`: build the
decoder, consume a header row if the plan needs one — discarding
`consumeHeader`'s result, as the source does — run the row loop, and
finalize. There is no entry check of `r.err` (the source has none). -/
def ReaderReadAll (t : TargetShape) (r : Reader) :
    Reader × Option GoErr × List DecodedRec :=
  match newDecoder r.opt t with
  | .error e => finishDone { r with err := some e } []
  | .ok dec =>
    if dec.needHeader then
      if r.lineno = 0 then
        let r1 := r.readLine
        if r1.err.isSome then finishDone r1 []
        else
          let dec' := (dec.consumeHeader (r1.firstLine.getD [])).1
          let p := readAllLoop dec' r1 []
          finishDone p.1 p.2
      else
        let dec' := (dec.consumeHeader (r.firstLine.getD [])).1
        let p := readAllLoop dec' r []
        finishDone p.1 p.2
    else
      let p := readAllLoop dec r []
      finishDone p.1 p.2

/-- The three legal shapes of a `Loop` visitor: no return value, a `bool`
("continue") return, or an `error` return. The visitor is modelled by its
return behaviour on each decoded record; the records handed to it are
collected by the loop. -/
inductive LoopBody where
  | noRet
  | retBool (f : DecodedRec → Bool)
  | retErr (f : DecodedRec → Option GoErr)

/-- The row loop of `Reader.Loop`, structured over explicit fuel so that
the recursion is structural (see `loopIterF_fuel`): read, decode
(stopping with the error on failure), hand the record to the visitor, and
interpret its result — `false` stops silently, a non-nil error stops and
is recorded unless it is exactly the `Break` sentinel. -/
def loopIterF (dec : RowDecoder) (body : LoopBody) : Nat → Reader →
    List DecodedRec → Reader × List DecodedRec
  | 0, r, handed => (r, handed)
  | fuel + 1, r, handed =>
    let r' := r.readLine
    if r'.err.isSome then (r', handed)
    else
      let d := dec.decode r'.cur
      match d.2 with
      | some e => ({ r' with err := some e }, handed)
      | none =>
        match body with
        | .noRet => loopIterF dec body fuel r' (handed ++ [d.1])
        | .retBool f =>
          if f d.1 then loopIterF dec body fuel r' (handed ++ [d.1])
          else (r', handed ++ [d.1])
        | .retErr f =>
          match f d.1 with
          | none => loopIterF dec body fuel r' (handed ++ [d.1])
          | some e =>
            (if e = .brk then r' else { r' with err := some e }, handed ++ [d.1])

/-- The row loop of `Reader.Loop`. -/
def loopIter (dec : RowDecoder) (body : LoopBody) (r : Reader)
    (handed : List DecodedRec) : Reader × List DecodedRec :=
  loopIterF dec body (r.rows.length + 1) r handed

/-- `Reader.Loop` for a valid visitor over shape `t`: after the entry
error check and the empty-struct check, build the decoder, resolve the
header if needed (failures are recorded, unlike `ReadAll`), run the row
loop, and finalize (`defer Done` covers every exit). -/
def ReaderLoop (t : TargetShape) (body : LoopBody) (r : Reader) :
    Reader × Option GoErr × List DecodedRec :=
  if r.err.isSome then finishDone r []
  else if isEmptyStruct t then
    finishDone
      { r with err := some (.msg "The struct passed to Loop must have at least one field") } []
  else
    match newDecoder r.opt t with
    | .error e => finishDone { r with err := some e } []
    | .ok dec =>
      if dec.needHeader then
        if r.lineno = 0 then
          let r1 := r.readLine
          if r1.err.isSome then finishDone r1 []
          else loopHeader dec body r1
        else loopHeader dec body r
      else
        let p := loopIter dec body r []
        finishDone p.1 p.2
where
  /-- The empty-struct guard of `Loop` (checked before `newDecoder`). -/
  isEmptyStruct : TargetShape → Bool
    | .strukt fields => fields.length = 0
    | .slice _ => false
  /-- Header resolution inside `Loop`: a `consumeHeader` failure is
  recorded and terminates, otherwise the row loop runs with the resolved
  decoder. -/
  loopHeader (dec : RowDecoder) (body : LoopBody) (r : Reader) :
      Reader × Option GoErr × List DecodedRec :=
    let h := dec.consumeHeader (r.firstLine.getD [])
    match h.2 with
    | some e => finishDone { r with err := some e } []
    | none =>
      let p := loopIter h.1 body r []
      finishDone p.1 p.2

/-- Decoding into the caller's existing value, as `Read` does
(`decoder.decode(r.cur, reflect.ValueOf(e))`): struct fields are written
over the previous contents, a slice is replaced wholesale on success and
left untouched on failure. -/
def decodeInto (dec : RowDecoder) (out0 : DecodedRec) (row : List String) :
    DecodedRec × Option GoErr :=
  match dec, out0 with
  | .strukt d, .strukt fs =>
    let p := d.decode fs row
    (.strukt p.1, p.2)
  | .strukt d, .slice _ =>
    let p := d.decode (zeroRec d.fieldTypes) row
    (.strukt p.1, p.2)
  | .slice c, .slice es =>
    let p := sliceDecodeElems c es row []
    (.slice p.1, p.2)
  | .slice c, .strukt _ =>
    let p := sliceDecodeElems c [] row []
    (.slice p.1, p.2)

/-- `Reader.Read` for a valid pointer target of shape `t` whose current
value is `e0`: entry error check, decoder construction, header
resolution (failures recorded), one row read, and a decode into the
caller's value; returns the updated session, the success flag, and the
target's value after the call. -/
def ReaderRead (t : TargetShape) (e0 : DecodedRec) (r : Reader) :
    Reader × Bool × DecodedRec :=
  if r.err.isSome then (r, false, e0)
  else
    match newDecoder r.opt t with
    | .error e => ({ r with err := some e }, false, e0)
    | .ok dec =>
      if dec.needHeader then
        if r.lineno = 0 then
          let r1 := r.readLine
          if r1.err.isSome then (r1, false, e0)
          else readHeader dec e0 r1
        else readHeader dec e0 r
      else readBody dec e0 r
where
  /-- Header resolution inside `Read`. -/
  readHeader (dec : RowDecoder) (e0 : DecodedRec) (r : Reader) :
      Reader × Bool × DecodedRec :=
    let h := dec.consumeHeader (r.firstLine.getD [])
    match h.2 with
    | some e => ({ r with err := some e }, false, e0)
    | none => readBody h.1 e0 r
  /-- The single-row read-and-decode of `Read`. -/
  readBody (dec : RowDecoder) (e0 : DecodedRec) (r : Reader) :
      Reader × Bool × DecodedRec :=
    let r1 := r.readLine
    if r1.err.isSome then (r1, false, e0)
    else
      let p := decodeInto dec e0 r1.cur
      ({ r1 with err := p.2 }, p.2.isNone, p.1)

/-! ## Definitions used to state the claims -/

/-- The signature violations of a custom per-encoding decoder as the
specification enumerates them: not-a-function; wrong parameter count;
wrong parameter type; wrong return arity; return type mismatch; second
return not an error. The parameter-count/parameter-type pair and the
return-arity/return-shape pair are each mutually exclusive alternatives
(a missing parameter has no type to be wrong about); the groups are
independent. -/
def specSignatureViolations (conv : GoAny) (enc : String) (field : Field) :
    List String :=
  match conv with
  | .nonFunc _ =>
    ["The custom decoder for Encoding " ++ goQuote enc ++ " must be a function"]
  | .func f =>
    (if f.ins.length ≠ 1 then
      ["The custom decoder for Encoding " ++ goQuote enc ++
        " must receive an arg, but receives " ++ toString f.ins.length ++ " args"]
    else if ¬ isStringKind (f.ins.getD 0 .errorT) then
      ["The custom decoder for Encoding " ++ goQuote enc ++
        " must receive a string, but receives " ++ goScalarString (f.ins.getD 0 .errorT)]
    else []) ++
    (if f.outs.length ≠ 2 then
      ["The custom decoder for Encoding " ++ goQuote enc ++
        " must return two values, but returns " ++ toString f.outs.length ++ " values"]
    else
      (if GoType.scalar (f.outs.getD 0 .errorT) ≠ field.ftype then
        ["The type of field " ++ goQuote field.fname ++ " is " ++
          goTypeString field.ftype ++ ", but enc " ++ goQuote enc ++ " returns " ++
          goQuote (goScalarString (f.outs.getD 0 .errorT))]
      else []) ++
      (if f.outs.getD 1 .errorT ≠ .errorT then
        ["The second return value of the custom decoder for " ++ goQuote enc ++
          " must be error"]
      else []))

/-- The `Option.Decoders` map of `TestCustomDecoder_wrongType`: a nil
entry, a non-function entry, a function with no parameters or results,
and a function of the wrong parameter and result types. -/
def optWrongEncs : Opt :=
  { decoders := some [
      ("enc0", none),
      ("enc1", some (.nonFunc (.ofKind .int))),
      ("enc2", some (.func ⟨[], [], dummyConv⟩)),
      ("enc3", some (.func ⟨[.kind .int], [.named "float32", .kind .bool], dummyConv⟩))] }

/-- The four string fields of `TestCustomDecoder_wrongType`, each tagged
with one of the broken encodings. -/
def fieldsWrongEncs : List Field :=
  [{ fname := "F0", ftype := .ofKind .string, tagIndex := "0", tagEnc := "enc0" },
   { fname := "F1", ftype := .ofKind .string, tagIndex := "0", tagEnc := "enc1" },
   { fname := "F2", ftype := .ofKind .string, tagIndex := "0", tagEnc := "enc2" },
   { fname := "F3", ftype := .ofKind .string, tagIndex := "0", tagEnc := "enc3" }]

/-- The seven error lines `TestCustomDecoder_wrongType` expects, in field
declaration order. -/
def wrongEncsExpectedErrors : List String :=
  ["Encoding \"enc0\" is not defined",
   "The custom decoder for Encoding \"enc1\" must be a function",
   "The custom decoder for Encoding \"enc2\" must receive an arg, but receives 0 args",
   "The custom decoder for Encoding \"enc2\" must return two values, but returns 0 values",
   "The custom decoder for Encoding \"enc3\" must receive a string, but receives int",
   "The type of field \"F3\" is string, but enc \"enc3\" returns \"float32\"",
   "The second return value of the custom decoder for \"enc3\" must be error"]

/-- A two-field shape whose fields are both index-bound to column 0
(duplicate bound indices). -/
def fieldsDupIndex : List Field :=
  [{ fname := "A", ftype := .ofKind .int, tagIndex := "0" },
   { fname := "B", ftype := .ofKind .int, tagIndex := "0" }]

/-- A two-field shape with an in-range `int` field at column 0 and a
field bound to the out-of-range column 2. -/
def fieldsIdx02 : List Field :=
  [{ fname := "Int", ftype := .ofKind .int, tagIndex := "0" },
   { fname := "F", ftype := .ofKind .string, tagIndex := "2" }]

/-- A name-bound shape binding columns `a` and `c` (`c` will be missing
from the header `a,b`). -/
def fieldsNamesAC : List Field :=
  [{ fname := "Int", ftype := .ofKind .int, tagName := "a" },
   { fname := "C", ftype := .ofKind .int, tagName := "c" }]

/-! ## Theorems -/

/-! ### Association-list and analysis helper lemmas -/

theorem alistGet_nil [DecidableEq α] (k : α) :
    alistGet ([] : List (α × β)) k = none := rfl

theorem alistGet_cons [DecidableEq α] (p : α × β) (m : List (α × β)) (k : α) :
    alistGet (p :: m) k = if p.1 = k then some p.2 else alistGet m k := by
  obtain ⟨a, b⟩ := p
  unfold alistGet
  by_cases h : a = k <;> simp [List.find?_cons, h]

theorem alistGet_append_of_none [DecidableEq α] (m m' : List (α × β)) (k : α)
    (h : alistGet m k = none) : alistGet (m ++ m') k = alistGet m' k := by
  induction m with
  | nil => rfl
  | cons p rest ih =>
    rw [alistGet_cons] at h
    rw [List.cons_append, alistGet_cons]
    by_cases hp : p.1 = k
    · simp [hp] at h
    · rw [if_neg hp] at h ⊢
      exact ih h

theorem alistInsert_of_none [DecidableEq α] (m : List (α × β)) (k : α) (v : β)
    (h : alistGet m k = none) : alistInsert m k v = m ++ [(k, v)] := by
  induction m with
  | nil => rfl
  | cons p rest ih =>
    rw [alistGet_cons] at h
    by_cases hp : p.1 = k
    · simp [hp] at h
    · rw [if_neg hp] at h
      obtain ⟨a, b⟩ := p
      unfold alistInsert
      rw [if_neg hp, ih h]
      rfl

theorem foldl_alistInsert_fresh [DecidableEq α] (pairs : List (α × β)) :
    ∀ m : List (α × β), (∀ p ∈ pairs, alistGet m p.1 = none) →
    (pairs.map Prod.fst).Nodup →
    pairs.foldl (fun mm p => alistInsert mm p.1 p.2) m = m ++ pairs := by
  induction pairs with
  | nil => intro m _ _; simp
  | cons p rest ih =>
    intro m hfresh hnd
    have h1 : alistInsert m p.1 p.2 = m ++ [p] := by
      rw [alistInsert_of_none m p.1 p.2 (hfresh p (List.mem_cons_self p rest))]
    have hfresh' : ∀ q ∈ rest, alistGet (m ++ [p]) q.1 = none := by
      intro q hq
      rw [alistGet_append_of_none _ _ _ (hfresh q (List.mem_cons_of_mem p hq))]
      rw [alistGet_cons]
      rw [List.map_cons, List.nodup_cons] at hnd
      have : p.1 ≠ q.1 := fun he => hnd.1 (he ▸ List.mem_map_of_mem Prod.fst hq)
      simp [this, alistGet_nil]
    have hnd' : (rest.map Prod.fst).Nodup := by
      rw [List.map_cons, List.nodup_cons] at hnd
      exact hnd.2
    rw [List.foldl_cons, h1, ih (m ++ [p]) hfresh' hnd']
    simp

theorem validateCustomConverter_spec (conv : GoAny) (enc : String) (field : Field)
    (errs : List String) :
    validateCustomConverter conv enc field errs =
      (errs ++ specSignatureViolations conv enc field,
        (specSignatureViolations conv enc field).isEmpty) := by
  cases conv with
  | nonFunc t => rfl
  | func f =>
    unfold validateCustomConverter specSignatureViolations
    dsimp only
    split_ifs <;> simp

theorem parseStructTagPre_errs (enc : String) (field : Field) (errs : List String) :
    ∃ es, (parseStructTagPre enc field errs).2.1 = errs ++ es
      ∧ ((parseStructTagPre enc field errs).2.2 = true → es ≠ []) := by
  unfold parseStructTagPre
  split
  · split
    · exact ⟨[], by simp⟩
    · exact ⟨_, rfl, by simp⟩
  · exact ⟨_, rfl, by simp⟩

theorem parseStructTagEnc_errs (opt : Opt) (field : Field) (errs : List String) :
    ∃ es, (parseStructTagEnc opt field errs).2.1 = errs ++ es
      ∧ ((parseStructTagEnc opt field errs).2.2 = true → es ≠ []) := by
  unfold parseStructTagEnc
  by_cases henc : field.tagEnc = ""
  · simp only [henc]
    exact ⟨[], by simp⟩
  · rw [if_pos henc]
    split
    · split
      · rw [validateCustomConverter_spec]
        exact ⟨_, rfl, by simp⟩
      · exact parseStructTagPre_errs field.tagEnc field errs
    · exact parseStructTagPre_errs field.tagEnc field errs

theorem parseStructTagFinish_errs (opt : Opt) (field : Field) (k : Nat) (acc : TagAcc)
    (conv0 : Option Conv) (errs1 : List String) :
    ∃ es, (parseStructTagFinish opt field k acc conv0 errs1).tagErrors = errs1 ++ es := by
  unfold parseStructTagFinish
  cases conv0 with
  | some c =>
    dsimp only
    by_cases hn : field.tagName = ""
    · rw [if_neg (not_not_intro hn)]
      split
      · exact ⟨_, rfl⟩
      · exact ⟨[], by simp⟩
    · rw [if_pos hn]
      exact ⟨[], by simp⟩
  | none =>
    dsimp only
    generalize hcc : createConverterFromType opt field.ftype = res
    cases res with
    | error e =>
      dsimp only
      exact ⟨_, by rw [List.append_assoc]⟩
    | ok co =>
      cases co with
      | none => exact ⟨_, rfl⟩
      | some c =>
        dsimp only
        by_cases hn : field.tagName = ""
        · rw [if_neg (not_not_intro hn)]
          split
          · exact ⟨_, rfl⟩
          · exact ⟨[], by simp⟩
        · rw [if_pos hn]
          exact ⟨[], by simp⟩

theorem parseStructTagFinish_noerr (opt : Opt) (field : Field) (k : Nat) (acc : TagAcc)
    (conv0 : Option Conv) (errs1 : List String) (hname : field.tagName = "")
    (h : (parseStructTagFinish opt field k acc conv0 errs1).tagErrors = errs1) :
    ∃ c i, parsedIndexTag field.tagIndex = some i
      ∧ parseStructTagFinish opt field k acc conv0 errs1 =
          { acc with converters := acc.converters ++ [c],
                     idxMap := alistInsert acc.idxMap i k, tagErrors := errs1 } := by
  unfold parseStructTagFinish at h ⊢
  cases conv0 with
  | some c =>
    dsimp only at h ⊢
    rw [if_neg (not_not_intro hname)] at h ⊢
    generalize hpi : parsedIndexTag field.tagIndex = pi at h ⊢
    cases pi with
    | none => simp at h
    | some i => exact ⟨c, i, rfl, rfl⟩
  | none =>
    dsimp only at h ⊢
    generalize hcc : createConverterFromType opt field.ftype = res at h ⊢
    cases res with
    | error e => simp at h
    | ok co =>
      cases co with
      | none => simp at h
      | some c =>
        dsimp only at h ⊢
        rw [if_neg (not_not_intro hname)] at h ⊢
        generalize hpi : parsedIndexTag field.tagIndex = pi at h ⊢
        cases pi with
        | none => simp at h
        | some i => exact ⟨c, i, rfl, rfl⟩

theorem parseStructTag_noerr (opt : Opt) (field : Field) (k : Nat) (acc : TagAcc)
    (hname : field.tagName = "")
    (h : (parseStructTag opt field k acc).tagErrors = acc.tagErrors) :
    ∃ c i, parsedIndexTag field.tagIndex = some i
      ∧ parseStructTag opt field k acc =
          { acc with converters := acc.converters ++ [c],
                     idxMap := alistInsert acc.idxMap i k } := by
  unfold parseStructTag at h ⊢
  by_cases hidx : field.tagIndex = ""
  · rw [if_pos ⟨hname, hidx⟩] at h
    simp at h
  · rw [if_neg (fun hh => hidx hh.2)] at h ⊢
    rw [if_neg (fun hh => hh.1 hname)] at h ⊢
    dsimp only at h ⊢
    obtain ⟨es0, he0, hear⟩ := parseStructTagEnc_errs opt field acc.tagErrors
    by_cases hs : (parseStructTagEnc opt field acc.tagErrors).2.2 = true
    · rw [if_pos hs] at h
      dsimp only at h
      rw [he0] at h
      have hes0 : es0 = [] := by simpa using h
      exact absurd hes0 (hear hs)
    · rw [if_neg hs] at h ⊢
      obtain ⟨es1, he1⟩ := parseStructTagFinish_errs opt field k acc
        (parseStructTagEnc opt field acc.tagErrors).1
        (parseStructTagEnc opt field acc.tagErrors).2.1
      have hboth : es0 ++ es1 = [] := by
        rw [he1, he0, List.append_assoc] at h
        simpa using h
      obtain ⟨hes0, hes1⟩ := List.append_eq_nil.mp hboth
      have hs1 : (parseStructTagEnc opt field acc.tagErrors).2.1 = acc.tagErrors := by
        rw [he0, hes0, List.append_nil]
      obtain ⟨c, i, hpi, heq⟩ := parseStructTagFinish_noerr opt field k acc
        (parseStructTagEnc opt field acc.tagErrors).1
        (parseStructTagEnc opt field acc.tagErrors).2.1 hname
        (by rw [he1, hes1, List.append_nil])
      refine ⟨c, i, hpi, ?_⟩
      rw [heq, hs1]

theorem parseStructTag_errs_prefix (opt : Opt) (field : Field) (k : Nat) (acc : TagAcc) :
    ∃ es, (parseStructTag opt field k acc).tagErrors = acc.tagErrors ++ es := by
  unfold parseStructTag
  split
  · exact ⟨_, rfl⟩
  · split
    · exact ⟨_, rfl⟩
    · obtain ⟨es0, he0, _⟩ := parseStructTagEnc_errs opt field acc.tagErrors
      dsimp only
      by_cases hs : (parseStructTagEnc opt field acc.tagErrors).2.2 = true
      · rw [if_pos hs]
        exact ⟨es0, he0⟩
      · rw [if_neg hs]
        obtain ⟨es1, he1⟩ := parseStructTagFinish_errs opt field k acc
          (parseStructTagEnc opt field acc.tagErrors).1
          (parseStructTagEnc opt field acc.tagErrors).2.1
        exact ⟨es0 ++ es1, by rw [he1, he0, List.append_assoc]⟩

theorem foldTags_errs_prefix (opt : Opt) (fs : List Field) : ∀ (k : Nat) (acc : TagAcc),
    ∃ es, ((fs.enumFrom k).foldl (fun a p => parseStructTag opt p.2 p.1 a) acc).tagErrors
      = acc.tagErrors ++ es := by
  induction fs with
  | nil => exact fun k acc => ⟨[], by simp [List.enumFrom]⟩
  | cons f fs ih =>
    intro k acc
    have hstep : ((f :: fs).enumFrom k).foldl (fun a p => parseStructTag opt p.2 p.1 a) acc
        = (fs.enumFrom (k + 1)).foldl (fun a p => parseStructTag opt p.2 p.1 a)
            (parseStructTag opt f k acc) := rfl
    rw [hstep]
    obtain ⟨e1, he1⟩ := parseStructTag_errs_prefix opt f k acc
    obtain ⟨es, hes⟩ := ih (k + 1) (parseStructTag opt f k acc)
    exact ⟨e1 ++ es, by rw [hes, he1, List.append_assoc]⟩

/-- Characterization of the struct-tag analysis over a run of index-bound
fields that produced no errors: exactly one converter per field is
appended, the name map is untouched, and the index map receives the
parsed `(column, field)` pair of each field in declaration order. -/
theorem foldTags_index_noerr (opt : Opt) (fs : List Field) : ∀ (k : Nat) (acc : TagAcc),
    (∀ f ∈ fs, f.tagName = "") →
    ((fs.enumFrom k).foldl (fun a p => parseStructTag opt p.2 p.1 a) acc).tagErrors
      = acc.tagErrors →
    ∃ (cs : List Conv) (pairs : List (Nat × Nat)),
      (fs.enumFrom k).foldl (fun a p => parseStructTag opt p.2 p.1 a) acc
        = { acc with converters := acc.converters ++ cs,
                     idxMap := pairs.foldl (fun m p => alistInsert m p.1 p.2) acc.idxMap }
      ∧ cs.length = fs.length
      ∧ pairs.map Prod.snd = List.range' k fs.length
      ∧ fs.map (fun f => parsedIndexTag f.tagIndex) = pairs.map (fun p => some p.1) := by
  induction fs with
  | nil =>
    intro k acc _ _
    refine ⟨[], [], ?_, rfl, rfl, rfl⟩
    simp [List.enumFrom]
  | cons f fs ih =>
    intro k acc hname hnoerr
    have hstep_eq : ((f :: fs).enumFrom k).foldl (fun a p => parseStructTag opt p.2 p.1 a) acc
        = (fs.enumFrom (k + 1)).foldl (fun a p => parseStructTag opt p.2 p.1 a)
            (parseStructTag opt f k acc) := rfl
    rw [hstep_eq] at hnoerr ⊢
    obtain ⟨e1, he1⟩ := parseStructTag_errs_prefix opt f k acc
    obtain ⟨es, hes⟩ := foldTags_errs_prefix opt fs (k + 1) (parseStructTag opt f k acc)
    have hcat : e1 ++ es = [] := by
      rw [hes, he1, List.append_assoc] at hnoerr
      simpa using hnoerr
    obtain ⟨he1nil, hesnil⟩ := List.append_eq_nil.mp hcat
    have hstep_noerr : (parseStructTag opt f k acc).tagErrors = acc.tagErrors := by
      rw [he1, he1nil, List.append_nil]
    obtain ⟨c, i, hpi, hstep⟩ := parseStructTag_noerr opt f k acc
      (hname f (List.mem_cons_self f fs)) hstep_noerr
    have hnoerr' : ((fs.enumFrom (k + 1)).foldl (fun a p => parseStructTag opt p.2 p.1 a)
        (parseStructTag opt f k acc)).tagErrors = (parseStructTag opt f k acc).tagErrors := by
      rw [hes, hesnil, List.append_nil]
    obtain ⟨cs, pairs, hfold, hlen, hsnd, hfst⟩ := ih (k + 1) (parseStructTag opt f k acc)
      (fun g hg => hname g (List.mem_cons_of_mem f hg)) hnoerr'
    refine ⟨c :: cs, (i, k) :: pairs, ?_, by simp [hlen], ?_, ?_⟩
    · rw [hfold, hstep]
      simp [List.append_assoc]
    · show k :: pairs.map Prod.snd = List.range' k (fs.length + 1)
      rw [hsnd]
      rfl
    · show parsedIndexTag f.tagIndex :: fs.map (fun f => parsedIndexTag f.tagIndex)
        = some i :: pairs.map (fun p => some p.1)
      rw [hfst, hpi]

/-- Shape of a successfully constructed decoder for an all-index-bound
struct: no pending names, one converter per field, and an index map built
from the parsed `(column, field)` pairs in declaration order. -/
theorem newStructDecoder_index_spec (opt : Opt) (fs : List Field) (dec : StructRowDecoder)
    (hname : ∀ f ∈ fs, f.tagName = "")
    (hdec : newStructDecoder opt fs = .ok dec) :
    dec.fieldTypes = fs.map Field.ftype
    ∧ dec.names = none
    ∧ ∃ pairs : List (Nat × Nat),
        dec.converters.length = fs.length
        ∧ dec.indice = some (pairs.foldl (fun m p => alistInsert m p.1 p.2) [])
        ∧ pairs.map Prod.snd = List.range' 0 fs.length
        ∧ fs.map (fun f => parsedIndexTag f.tagIndex) = pairs.map (fun p => some p.1) := by
  unfold newStructDecoder at hdec
  dsimp only at hdec
  split at hdec
  · exact absurd hdec (by simp)
  · split at hdec
    · exact absurd hdec (by simp)
    · split at hdec
      · -- mixed binding modes: the error list is non-empty, so construction fails
        split at hdec
        · exact absurd hdec (by simp)
        · rename_i hlen
          simp at hlen
      · split at hdec
        · exact absurd hdec (by simp)
        · rename_i hmix hlen
          rw [not_not] at hlen
          have haccerr :
              (fs.enum.foldl (fun a p => parseStructTag opt p.2 p.1 a)
                ({} : TagAcc)).tagErrors = [] :=
            List.eq_nil_of_length_eq_zero hlen
          have henum : fs.enum = fs.enumFrom 0 := rfl
          obtain ⟨cs, pairs, hfold, hcslen, hsnd, hfst⟩ :=
            foldTags_index_noerr opt fs 0 ({} : TagAcc) hname (by rw [← henum, haccerr])
          rw [henum, hfold] at hdec
          split at hdec
          · rename_i hnm
            dsimp only at hnm
            simp at hnm
          · rw [Except.ok.injEq] at hdec
            subst hdec
            refine ⟨rfl, rfl, pairs, ?_, ?_, hsnd, hfst⟩
            · dsimp only
              simpa using hcslen
            · dsimp only

/-- Positional structure of the binding pairs produced by
`foldTags_index_noerr`: the pair at position `j` binds field `j` to its
parsed column index. -/
theorem pairs_get_structure (fs : List Field) (pairs : List (Nat × Nat))
    (hsnd : pairs.map Prod.snd = List.range' 0 fs.length)
    (hfst : fs.map (fun f => parsedIndexTag f.tagIndex) = pairs.map (fun p => some p.1)) :
    pairs.length = fs.length
    ∧ ∀ (j : Nat) (f : Field), fs[j]? = some f →
        ∃ i, pairs[j]? = some (i, j) ∧ parsedIndexTag f.tagIndex = some i := by
  have hplen : pairs.length = fs.length := by
    have := congrArg List.length hsnd
    simpa using this
  refine ⟨hplen, fun j f hf => ?_⟩
  have hj : j < fs.length := by
    by_contra hj
    rw [List.getElem?_eq_none (by omega)] at hf
    exact Option.noConfusion hf
  have hjp : j < pairs.length := by omega
  obtain ⟨p, hp⟩ : ∃ p, pairs[j]? = some p :=
    ⟨pairs[j], List.getElem?_eq_getElem hjp⟩
  have hsnd' : p.2 = j := by
    have h1 : (pairs.map Prod.snd)[j]? = some p.2 := by
      rw [List.getElem?_map, hp]
      rfl
    rw [hsnd, List.getElem?_range'] at h1
    · simpa using h1.symm
    · exact hj
  have hfst' : parsedIndexTag f.tagIndex = some p.1 := by
    have h1 : (fs.map fun f => parsedIndexTag f.tagIndex)[j]? =
        some (parsedIndexTag f.tagIndex) := by
      rw [List.getElem?_map, hf]
      rfl
    rw [hfst] at h1
    have h2 : (pairs.map fun p => some p.1)[j]? = some (some p.1) := by
      rw [List.getElem?_map, hp]
      rfl
    rw [h2] at h1
    exact (Option.some.inj h1).symm
  refine ⟨p.1, ?_, hfst'⟩
  rw [hp, ← hsnd']

/-- Membership structure of the binding pairs: every pair binds some
field position to that field's parsed column index. -/
theorem pairs_mem_structure (fs : List Field) (pairs : List (Nat × Nat))
    (hsnd : pairs.map Prod.snd = List.range' 0 fs.length)
    (hfst : fs.map (fun f => parsedIndexTag f.tagIndex) = pairs.map (fun p => some p.1)) :
    ∀ p ∈ pairs, p.2 < fs.length
      ∧ ∃ f, fs[p.2]? = some f ∧ parsedIndexTag f.tagIndex = some p.1 := by
  intro p hp
  obtain ⟨hplen, hget⟩ := pairs_get_structure fs pairs hsnd hfst
  obtain ⟨jj, hjj, hpj⟩ := List.getElem_of_mem hp
  have hjlen : jj < fs.length := by omega
  obtain ⟨f, hf⟩ : ∃ f, fs[jj]? = some f := ⟨fs[jj], List.getElem?_eq_getElem hjlen⟩
  obtain ⟨i, hpair, hparse⟩ := hget jj f hf
  rw [List.getElem?_eq_getElem hjj, hpj] at hpair
  have : p = (i, jj) := Option.some.inj hpair.symm ▸ rfl
  subst this
  exact ⟨hjlen, f, hf, hparse⟩

/-- Running the binding loop when every listed binding is in range and
its converter succeeds: no error, fields outside the bound positions keep
their previous value, and (when the bound positions are distinct) each
bound field holds exactly its converter's result. -/
theorem decodeEntries_ok (cs : List Conv) (row : List String) :
    ∀ (entries : List (Nat × Nat)) (out : List GoValue),
    (∀ p ∈ entries, p.1 < row.length
      ∧ ∃ v, (cs.getD p.2 dummyConv) (row.getD p.1 "") = .ok v) →
    (decodeEntries cs row entries out).2 = none
    ∧ (∀ j, j ∉ entries.map Prod.snd →
        ((decodeEntries cs row entries out).1)[j]? = out[j]?)
    ∧ ((entries.map Prod.snd).Nodup →
        ∀ i j v, (i, j) ∈ entries → j < out.length →
          (cs.getD j dummyConv) (row.getD i "") = .ok v →
          ((decodeEntries cs row entries out).1)[j]? = some v) := by
  intro entries
  induction entries with
  | nil =>
    intro out _
    exact ⟨rfl, fun j _ => rfl, fun _ i j v hmem => absurd hmem (by simp)⟩
  | cons p rest ih =>
    intro out h
    obtain ⟨hlt, v0, hv0⟩ := h p (List.mem_cons_self p rest)
    obtain ⟨i0, j0⟩ := p
    have hstep : decodeEntries cs row ((i0, j0) :: rest) out
        = decodeEntries cs row rest (out.set j0 v0) := by
      conv_lhs => unfold decodeEntries
      rw [if_neg (by omega), hv0]
    obtain ⟨ih1, ih2, ih3⟩ := ih (out.set j0 v0)
      (fun q hq => h q (List.mem_cons_of_mem _ hq))
    rw [hstep]
    refine ⟨ih1, ?_, ?_⟩
    · intro j hj
      rw [List.map_cons] at hj
      have hjne : j ≠ j0 := fun he => hj (he ▸ List.mem_cons_self j0 _)
      have hjrest : j ∉ rest.map Prod.snd := fun hh => hj (List.mem_cons_of_mem _ hh)
      rw [ih2 j hjrest, List.getElem?_set_ne (fun he => hjne he.symm)]
    · intro hnd i j v hmem hjlen hv
      rw [List.map_cons, List.nodup_cons] at hnd
      rcases List.mem_cons.mp hmem with heq | hmemr
      · injection heq with hi hj
        subst hi
        subst hj
        have hvv : v = v0 := by
          rw [hv0] at hv
          exact (Except.ok.inj hv).symm
        subst hvv
        have hj0 : j ∉ rest.map Prod.snd := hnd.1
        rw [ih2 j hj0, List.getElem?_set_eq_of_lt _ hjlen]
      · have hjlen' : j < (out.set j0 v0).length := by
          rw [List.length_set]
          exact hjlen
        exact ih3 hnd.2 i j v hmemr hjlen' hv

/-- Running the binding loop over bindings split as
`pre ++ (i0, j0) :: post` where every `pre` binding is in range with a
succeeding converter and `i0` is out of range: the loop stops at `(i0,
j0)` with the out-of-range error citing `i0` and the row length. -/
theorem decodeEntries_oor (cs : List Conv) (row : List String) (i0 j0 : Nat)
    (post : List (Nat × Nat)) (hoor : row.length ≤ i0) :
    ∀ (pre : List (Nat × Nat)) (out : List GoValue),
    (∀ p ∈ pre, p.1 < row.length
      ∧ ∃ v, (cs.getD p.2 dummyConv) (row.getD p.1 "") = .ok v) →
    (decodeEntries cs row (pre ++ (i0, j0) :: post) out).2 =
      some (.msg ("Accessed index " ++ toString i0 ++
        " though the size of the row is " ++ toString row.length)) := by
  intro pre
  induction pre with
  | nil =>
    intro out _
    rw [List.nil_append]
    conv_lhs => unfold decodeEntries
    rw [if_pos (by omega)]
  | cons p rest ih =>
    intro out h
    obtain ⟨hlt, v0, hv0⟩ := h p (List.mem_cons_self p rest)
    obtain ⟨i1, j1⟩ := p
    rw [List.cons_append]
    have hstep : decodeEntries cs row ((i1, j1) :: (rest ++ (i0, j0) :: post)) out
        = decodeEntries cs row (rest ++ (i0, j0) :: post) (out.set j1 v0) := by
      conv_lhs => unfold decodeEntries
      rw [if_neg (by omega), hv0]
    rw [hstep]
    exact ih (out.set j1 v0) (fun q hq => h q (List.mem_cons_of_mem _ hq))

theorem convGetD_set_ne (cs : List Conv) (j0 j : Nat) (c : Conv) (h : j ≠ j0) :
    (cs.set j0 c).getD j dummyConv = cs.getD j dummyConv := by
  rw [List.getD_eq_getElem?_getD, List.getD_eq_getElem?_getD,
    List.getElem?_set_ne (fun he => h he.symm)]

/-- C1 counterexample: a shape whose two fields are both index-bound to
column 0 (each with a resolved `int` converter) against the row `5`: the
later field's map entry overwrites the earlier one, so field `A` stays at
its zero value 0 although its converter applied to column 0 yields 5 —
the claim's "stores in each bound field the converter's value" fails. -/
theorem decode_duplicate_index_counterexample :
    (Except.map (fun d => (d.decode (zeroRec d.fieldTypes) ["5"]).1[0]?)
      (newStructDecoder {} fieldsDupIndex) = .ok (some (.intV 0)))
    ∧ (Except.map (fun d => (d.converters.getD 0 dummyConv) "5")
      (newStructDecoder {} fieldsDupIndex) = .ok (.ok (.intV 5)))
    ∧ GoValue.intV 0 ≠ GoValue.intV 5 := by
  exact ⟨by decide, by decide, by decide⟩

/-- C1 amended: for every struct shape whose fields are all index-bound
with pairwise distinct bound indices and resolved converters, and every
row long enough to contain every bound index on which every field's
converter succeeds, `decode` succeeds and stores in each bound field
exactly the value obtained by applying that field's converter to the raw
string at its bound column — independently of the record the output is
decoded into (`Loop` and `ReadAll` pass a fresh zero record per row, so
previously produced records are unaffected). -/
theorem decode_index_bound_fields_correct (opt : Opt) (fs : List Field)
    (dec : StructRowDecoder) (row : List String)
    (hdec : newStructDecoder opt fs = .ok dec)
    (hname : ∀ f ∈ fs, f.tagName = "")
    (hdist : (fs.map fun f => parsedIndexTag f.tagIndex).Nodup)
    (hrange : ∀ f ∈ fs, ∀ i, parsedIndexTag f.tagIndex = some i → i < row.length)
    (hconv : ∀ (j : Nat) (f : Field) (i : Nat), fs[j]? = some f →
        parsedIndexTag f.tagIndex = some i →
        ∃ v, (dec.converters.getD j dummyConv) (row.getD i "") = .ok v) :
    ((dec.decode (zeroRec dec.fieldTypes) row).2 = none)
    ∧ (∀ (j : Nat) (f : Field) (i : Nat) (v : GoValue) (out0 : List GoValue),
        fs[j]? = some f → parsedIndexTag f.tagIndex = some i →
        (dec.converters.getD j dummyConv) (row.getD i "") = .ok v →
        out0.length = fs.length →
        ((decodeEntries dec.converters row ((dec.indice).getD []) out0).1)[j]? = some v
        ∧ (decodeEntries dec.converters row ((dec.indice).getD []) out0).2 = none) := by
  obtain ⟨hft, hnames, pairs, hclen, hind, hsnd, hfst⟩ :=
    newStructDecoder_index_spec opt fs dec hname hdec
  have hfstnd : (pairs.map Prod.fst).Nodup := by
    rw [hfst] at hdist
    have : pairs.map (fun p => some p.1) = (pairs.map Prod.fst).map some := by
      rw [List.map_map]
      rfl
    rw [this] at hdist
    exact hdist.of_map some
  have hentries : (dec.indice).getD [] = pairs := by
    rw [hind, Option.getD_some,
      foldl_alistInsert_fresh pairs [] (fun p _ => rfl) hfstnd, List.nil_append]
  have hmem := pairs_mem_structure fs pairs hsnd hfst
  have hall : ∀ p ∈ pairs, p.1 < row.length
      ∧ ∃ v, (dec.converters.getD p.2 dummyConv) (row.getD p.1 "") = .ok v := by
    intro p hp
    obtain ⟨hplt, f, hf, hparse⟩ := hmem p hp
    refine ⟨hrange f (List.getElem?_mem hf) p.1 hparse, ?_⟩
    exact hconv p.2 f p.1 hf hparse
  obtain ⟨hget, hpos⟩ := pairs_get_structure fs pairs hsnd hfst
  have hsndnd : (pairs.map Prod.snd).Nodup := by
    rw [hsnd]
    exact List.nodup_range' 0 fs.length
  constructor
  · show (decodeEntries dec.converters row ((dec.indice).getD [])
      (zeroRec dec.fieldTypes)).2 = none
    rw [hentries]
    exact (decodeEntries_ok dec.converters row pairs (zeroRec dec.fieldTypes) hall).1
  · intro j f i v out0 hf hpi hv hlen
    rw [hentries]
    obtain ⟨h1, h2, h3⟩ := decodeEntries_ok dec.converters row pairs out0 hall
    obtain ⟨i2, hpair, hparse2⟩ := hpos j f hf
    have hii : i2 = i := by
      rw [hparse2] at hpi
      exact Option.some.inj hpi
    rw [hii] at hpair
    have hjmem : (i, j) ∈ pairs := List.getElem?_mem hpair
    have hjlt : j < fs.length := by
      by_contra hj
      rw [List.getElem?_eq_none (by omega)] at hf
      exact Option.noConfusion hf
    exact ⟨h3 hsndnd i j v hjmem (by omega) hv, h1⟩

/-- C1 witness: the two-field shape `{A int index 0; B string index 1}`
decoded from the row `10,al`: decode succeeds, field `A` holds 10 and
field `B` holds `al` — each the value of its converter on its column. -/
theorem decode_index_bound_fields_correct_witness :
    (Except.map (fun d => (d.decode (zeroRec d.fieldTypes) ["10", "al"]).2)
      (newStructDecoder {} [{ fname := "A", ftype := .ofKind .int, tagIndex := "0" },
        { fname := "B", ftype := .ofKind .string, tagIndex := "1" }]) = .ok none)
    ∧ (Except.map (fun d => (d.decode (zeroRec d.fieldTypes) ["10", "al"]).1[0]?)
      (newStructDecoder {} [{ fname := "A", ftype := .ofKind .int, tagIndex := "0" },
        { fname := "B", ftype := .ofKind .string, tagIndex := "1" }]) = .ok (some (.intV 10)))
    ∧ (Except.map (fun d => (d.decode (zeroRec d.fieldTypes) ["10", "al"]).1[1]?)
      (newStructDecoder {} [{ fname := "A", ftype := .ofKind .int, tagIndex := "0" },
        { fname := "B", ftype := .ofKind .string, tagIndex := "1" }])
      = .ok (some (.strV "al"))) := by
  have h := decode_index_bound_fields_correct ({} : Opt)
    [{ fname := "A", ftype := .ofKind .int, tagIndex := "0" },
     { fname := "B", ftype := .ofKind .string, tagIndex := "1" }]
    _ ["10", "al"] rfl (by decide) (by decide)
    (by
      intro f hf i hpi
      fin_cases hf
      · have h0 : some 0 = some i := hpi
        have : i = 0 := (Option.some.inj h0).symm
        subst this
        decide
      · have h1 : some 1 = some i := hpi
        have : i = 1 := (Option.some.inj h1).symm
        subst this
        decide)
    (by
      intro j f i hf hpi
      cases j with
      | zero =>
        simp only [List.getElem?_cons_zero, Option.some.injEq] at hf
        subst hf
        have h0 : some 0 = some i := hpi
        have : i = 0 := (Option.some.inj h0).symm
        subst this
        exact ⟨.intV 10, by decide⟩
      | succ j =>
        cases j with
        | zero =>
          simp only [List.getElem?_cons_succ, List.getElem?_cons_zero,
            Option.some.injEq] at hf
          subst hf
          have h1 : some 1 = some i := hpi
          have : i = 1 := (Option.some.inj h1).symm
          subst this
          exact ⟨.strV "al", by decide⟩
        | succ j => simp at hf)
  refine ⟨?_, ?_, ?_⟩
  · exact congrArg Except.ok h.1
  · exact congrArg Except.ok
      (h.2 0 { fname := "A", ftype := .ofKind .int, tagIndex := "0" } 0 (.intV 10)
        (zeroRec [(.ofKind .int), (.ofKind .string)]) rfl rfl (by decide) (by decide)).1
  · exact congrArg Except.ok
      (h.2 1 { fname := "B", ftype := .ofKind .string, tagIndex := "1" } 1 (.strV "al")
        (zeroRec [(.ofKind .int), (.ofKind .string)]) rfl rfl (by decide) (by decide)).1

/-- C5 counterexample: the shape `{Int int index 0; F string index 2}`
decoded from the row `x,y` (length 2, so index 2 is out of range): the
field at column 0 is processed first and its converter fails on `x`, so
decode surfaces the parse error, not the out-of-range error citing index
2 and length 2 that the claim requires. -/
theorem decode_out_of_range_preempted_counterexample :
    (Except.map (fun d => (d.decode (zeroRec d.fieldTypes) ["x", "y"]).2)
      (newStructDecoder {} fieldsIdx02)
      = .ok (some (.msg "strconv.ParseInt: parsing \"x\": invalid syntax")))
    ∧ ¬ (Except.map (fun d => (d.decode (zeroRec d.fieldTypes) ["x", "y"]).2)
      (newStructDecoder {} fieldsIdx02)
      = .ok (some (.msg "Accessed index 2 though the size of the row is 2"))) := by
  exact ⟨by decide, by decide⟩

/-- C5 amended: for every struct shape with pairwise distinct bound
indices, a field bound to column `i0` and a row of length at most `i0`,
where every other bound field's index is within the row and its converter
succeeds on its column, `decode` fails with the out-of-range error citing
`i0` and the row's length, and the converter of the out-of-range field is
not invoked (the result is unchanged under any replacement of that
field's converter); in particular a field bound to index 2 against a row
of length 2 fails this way. -/
theorem decode_out_of_range_error (opt : Opt) (fs : List Field)
    (dec : StructRowDecoder) (row : List String) (j0 : Nat) (f0 : Field) (i0 : Nat)
    (hdec : newStructDecoder opt fs = .ok dec)
    (hname : ∀ f ∈ fs, f.tagName = "")
    (hdist : (fs.map fun f => parsedIndexTag f.tagIndex).Nodup)
    (hj : fs[j0]? = some f0) (hi : parsedIndexTag f0.tagIndex = some i0)
    (hoor : row.length ≤ i0)
    (hothers : ∀ (j : Nat) (f : Field) (i : Nat), fs[j]? = some f → j ≠ j0 →
        parsedIndexTag f.tagIndex = some i →
        i < row.length ∧ ∃ v, (dec.converters.getD j dummyConv) (row.getD i "") = .ok v) :
    ∀ out0 : List GoValue,
      ((decodeEntries dec.converters row ((dec.indice).getD []) out0).2 =
        some (.msg ("Accessed index " ++ toString i0 ++
          " though the size of the row is " ++ toString row.length)))
      ∧ (∀ c : Conv,
        (decodeEntries (dec.converters.set j0 c) row ((dec.indice).getD []) out0).2 =
          some (.msg ("Accessed index " ++ toString i0 ++
            " though the size of the row is " ++ toString row.length))) := by
  obtain ⟨hft, hnames, pairs, hclen, hind, hsnd, hfst⟩ :=
    newStructDecoder_index_spec opt fs dec hname hdec
  have hfstnd : (pairs.map Prod.fst).Nodup := by
    rw [hfst] at hdist
    have : pairs.map (fun p => some p.1) = (pairs.map Prod.fst).map some := by
      rw [List.map_map]
      rfl
    rw [this] at hdist
    exact hdist.of_map some
  have hentries : (dec.indice).getD [] = pairs := by
    rw [hind, Option.getD_some,
      foldl_alistInsert_fresh pairs [] (fun p _ => rfl) hfstnd, List.nil_append]
  obtain ⟨hplen, hpos⟩ := pairs_get_structure fs pairs hsnd hfst
  have hmem := pairs_mem_structure fs pairs hsnd hfst
  have hjlt : j0 < fs.length := by
    by_contra hh
    rw [List.getElem?_eq_none (by omega)] at hj
    exact Option.noConfusion hj
  obtain ⟨i2, hpair, hparse2⟩ := hpos j0 f0 hj
  have hii : i2 = i0 := by
    rw [hparse2] at hi
    exact Option.some.inj hi
  rw [hii] at hpair
  have hjp : j0 < pairs.length := by omega
  have hsplit : pairs = pairs.take j0 ++ (i0, j0) :: pairs.drop (j0 + 1) := by
    rw [List.getElem?_eq_getElem hjp] at hpair
    conv_lhs => rw [← List.take_append_drop j0 pairs]
    rw [List.drop_eq_getElem_cons hjp, Option.some.inj hpair]
  have hprene : ∀ p ∈ pairs.take j0, p.2 ≠ j0 := by
    intro p hp
    obtain ⟨jj, hjj, hgetp⟩ := List.getElem_of_mem hp
    have hjlen : jj < j0 := by
      rw [List.length_take] at hjj
      omega
    have hpp : pairs[jj]? = some p := by
      have h1 : (pairs.take j0)[jj]? = some p := by
        rw [List.getElem?_eq_getElem hjj, hgetp]
      rw [List.getElem?_take, if_pos hjlen] at h1
      exact h1
    have hjjlt : jj < fs.length := by
      rw [List.length_take] at hjj
      omega
    obtain ⟨f, hf⟩ : ∃ f, fs[jj]? = some f := ⟨fs[jj], List.getElem?_eq_getElem hjjlt⟩
    obtain ⟨ii, hpair2, _⟩ := hpos jj f hf
    rw [hpp] at hpair2
    have : p = (ii, jj) := Option.some.inj hpair2.symm ▸ rfl
    rw [this]
    intro hcon
    exact absurd hcon (by dsimp; omega)
  have hpreok : ∀ p ∈ pairs.take j0, p.1 < row.length
      ∧ ∃ v, (dec.converters.getD p.2 dummyConv) (row.getD p.1 "") = .ok v := by
    intro p hp
    obtain ⟨hplt, f, hf, hparse⟩ := hmem p (List.take_subset j0 pairs hp)
    exact hothers p.2 f p.1 hf (hprene p hp) hparse
  intro out0
  constructor
  · rw [hentries, hsplit]
    exact decodeEntries_oor dec.converters row i0 j0 (pairs.drop (j0 + 1)) hoor
      (pairs.take j0) out0 hpreok
  · intro c
    rw [hentries, hsplit]
    refine decodeEntries_oor (dec.converters.set j0 c) row i0 j0
      (pairs.drop (j0 + 1)) hoor (pairs.take j0) out0 ?_
    intro p hp
    rw [convGetD_set_ne dec.converters j0 p.2 c (hprene p hp)]
    exact hpreok p hp

/-- C5 witness: the single-field shape with the field bound to index 2
against the row `a,b` of length 2: decode fails with exactly the error
`Accessed index 2 though the size of the row is 2`, and replacing the
field's converter does not change the outcome. -/
theorem decode_out_of_range_error_witness :
    (Except.map (fun d => (d.decode (zeroRec d.fieldTypes) ["a", "b"]).2)
      (newStructDecoder {} [{ fname := "F", ftype := .ofKind .int, tagIndex := "2" }])
      = .ok (some (.msg "Accessed index 2 though the size of the row is 2")))
    ∧ (Except.map
        (fun d => (decodeEntries (d.converters.set 0 (fun _ => .ok (.intV 99)))
          ["a", "b"] ((d.indice).getD []) (zeroRec d.fieldTypes)).2)
      (newStructDecoder {} [{ fname := "F", ftype := .ofKind .int, tagIndex := "2" }])
      = .ok (some (.msg "Accessed index 2 though the size of the row is 2"))) := by
  have h := decode_out_of_range_error ({} : Opt)
    [{ fname := "F", ftype := .ofKind .int, tagIndex := "2" }]
    _ ["a", "b"] 0 { fname := "F", ftype := .ofKind .int, tagIndex := "2" } 2
    rfl (by decide) (by decide) rfl rfl (by decide)
    (by
      intro j f i hf hne hpi
      cases j with
      | zero => exact absurd rfl hne
      | succ j => simp at hf)
    (zeroRec [(.ofKind .int)])
  exact ⟨congrArg Except.ok h.1, congrArg Except.ok (h.2 (fun _ => .ok (.intV 99)))⟩

/-- C7: the auto-base rules of the default converter hold (`0x` prefix
hex, leading `0` octal, otherwise decimal), but the default `uint64`
converter calls `strconv.ParseUint` with bit size 32 (a slip in
`createIntConverter`), so it accepts decimal values only up to
`2^32 - 1` and rejects `2^32` and `2^64 - 1`, contradicting the claim
that every value representable in 64 bits is accepted. -/
theorem uint64_default_converter_range_run :
    (Option.map (fun c => c "4294967295") (createDefaultConverter (.ofKind .uint64)) =
      some (.ok (.uintV 4294967295)))
    ∧ (Option.map (fun c => c "4294967296") (createDefaultConverter (.ofKind .uint64)) =
      some (.error (.msg "strconv.ParseUint: parsing \"4294967296\": value out of range")))
    ∧ (Option.map (fun c => c "18446744073709551615")
        (createDefaultConverter (.ofKind .uint64)) =
      some (.error
        (.msg "strconv.ParseUint: parsing \"18446744073709551615\": value out of range")))
    ∧ (Option.map (fun c => c "0x1A") (createDefaultConverter (.ofKind .int)) =
      some (.ok (.intV 26)))
    ∧ (Option.map (fun c => c "010") (createDefaultConverter (.ofKind .int)) =
      some (.ok (.intV 8)))
    ∧ (Option.map (fun c => c "10") (createDefaultConverter (.ofKind .int)) =
      some (.ok (.intV 10)))
    ∧ (Option.map (fun c => c "9223372036854775807") (createDefaultConverter (.ofKind .int)) =
      some (.ok (.intV 9223372036854775807))) := by
  refine ⟨by decide, by decide, by decide, by decide, by decide, by decide, by decide⟩

/-- C8 counterexample: the named `hex` encoding applied to an `int` field
interprets `"010"` in base 16, yielding 16, not 8 as the claim states:
the three encodings do not agree on `"010"`. -/
theorem hex_010_counterexample :
    (((predefinedDecoders "hex").bind fun pre => pre (.ofKind .int)).map
      (fun c => c "010") = some (.ok (.intV 16)))
    ∧ ¬ (((predefinedDecoders "hex").bind fun pre => pre (.ofKind .int)).map
      (fun c => c "010") = some (.ok (.intV 8))) := by
  exact ⟨by decide, by decide⟩

/-- C8 amended: for an `int` field the string `"010"` decodes to 16 under
the named `hex` encoding (base 16), to 8 under `oct` (base 8) and to 8
under the default auto-base converter (leading-zero octal); `"021"`
decodes to 33 under `hex`, 17 under `oct` and 17 under the default
converter. -/
theorem named_encodings_on_010_021 :
    ((((predefinedDecoders "hex").bind fun pre => pre (.ofKind .int)).map
      (fun c => c "010")) = some (.ok (.intV 16)))
    ∧ ((((predefinedDecoders "oct").bind fun pre => pre (.ofKind .int)).map
      (fun c => c "010")) = some (.ok (.intV 8)))
    ∧ ((createDefaultConverter (.ofKind .int)).map (fun c => c "010") =
      some (.ok (.intV 8)))
    ∧ ((((predefinedDecoders "hex").bind fun pre => pre (.ofKind .int)).map
      (fun c => c "021")) = some (.ok (.intV 33)))
    ∧ ((((predefinedDecoders "oct").bind fun pre => pre (.ofKind .int)).map
      (fun c => c "021")) = some (.ok (.intV 17)))
    ∧ ((createDefaultConverter (.ofKind .int)).map (fun c => c "021") =
      some (.ok (.intV 17))) := by
  refine ⟨by decide, by decide, by decide, by decide, by decide, by decide⟩

/-- C2: run of `ReadAll` into a `[][]int` target over the rows `10` and
`x`: the first decode failure (`x` is not an integer) stops the loop and
is surfaced as the return value, but the failing row's record — appended
before the source inspects the decode error — is in the slice as a
partially decoded (here empty) record, so the slice holds two entries
where the claim requires one. -/
theorem readAll_appends_failed_row_run :
    ((ReaderReadAll (.slice (.ofKind .int)) (NewReader [["10"], ["x"]] {})).2 =
      (some (.msg "strconv.ParseInt: parsing \"x\": invalid syntax"),
        [.slice [.intV 10], .slice []]))
    ∧ ((ReaderReadAll (.slice (.ofKind .int)) (NewReader [["10"], ["x"]] {})).2.2.length
        = 2) := by
  exact ⟨by decide, by decide⟩

/-- C3: run of the three entry points over a name-bound shape `{a, c}`
against the input `a,b` / `10,12`. `Loop` and `Read` surface the header
error `c did not appear in the first line` and decode nothing, but
`ReadAll` drops `consumeHeader`'s result: it finishes without error and
appends a record decoded from the one resolved column, contradicting the
claim that the failure is surfaced through every entry point with no
records decoded. -/
theorem readAll_swallows_missing_header_error_run :
    ((ReaderReadAll (.strukt fieldsNamesAC) (NewReader [["a", "b"], ["10", "12"]] {})).2 =
      (none, [.strukt [.intV 10, .intV 0]]))
    ∧ ((ReaderLoop (.strukt fieldsNamesAC) (.retErr fun _ => none)
        (NewReader [["a", "b"], ["10", "12"]] {})).2 =
      (some (.msg "c did not appear in the first line"), []))
    ∧ ((ReaderRead (.strukt fieldsNamesAC) (.strukt (zeroRec (fieldsNamesAC.map Field.ftype)))
        (NewReader [["a", "b"], ["10", "12"]] {})).2.1 = false)
    ∧ ((ReaderRead (.strukt fieldsNamesAC) (.strukt (zeroRec (fieldsNamesAC.map Field.ftype)))
        (NewReader [["a", "b"], ["10", "12"]] {})).1.err =
      some (.msg "c did not appear in the first line")) := by
  refine ⟨by decide, by decide, by decide, by decide⟩

theorem closeStep_done (r : Reader) : (r.closeStep).done = r.done := by
  unfold Reader.closeStep
  cases r.closer <;> simp
  split <;> rfl

theorem closeStep_closeCount (r : Reader) :
    (r.closeStep).closeCount = r.closeCount + (if r.closer.isSome then 1 else 0) := by
  unfold Reader.closeStep
  cases r.closer <;> simp
  split <;> rfl

theorem closeStep_err_clean (r : Reader) (he : r.err = none ∨ r.err = some .eof)
    (hc : r.closer = none ∨ r.closer = some none) :
    (r.closeStep).err = none ∨ (r.closeStep).err = some .eof := by
  unfold Reader.closeStep
  rcases hc with hc | hc <;> rw [hc]
  · exact he
  · rcases he with he | he <;> simp [he]

theorem closeStep_err_keep (r : Reader) (e : GoErr) (he : r.err = some e)
    (hne : e ≠ .eof) :
    (r.closeStep).err = some e := by
  unfold Reader.closeStep
  cases hc : r.closer with
  | none => exact he
  | some cerr =>
    dsimp only
    rw [if_neg]
    · exact he
    · show ¬(r.err = none ∨ r.err = some GoErr.eof)
      rw [he]
      rintro (h | h)
      · exact Option.noConfusion h
      · exact hne (Option.some.inj h)

theorem Done_of_done (r : Reader) (h : r.done = true) :
    r.Done = (r, r.nonEOFError) := by
  unfold Reader.Done
  rw [if_pos h]

theorem Done_of_not_done (r : Reader) (h : r.done = false) :
    r.Done = (Reader.closeStep { r with done := true },
      (Reader.closeStep { r with done := true }).nonEOFError) := by
  unfold Reader.Done
  rw [if_neg (by rw [h]; exact Bool.false_ne_true)]

/-- C4: `Done` is idempotent — the second call returns the same error as
the first and does not close again; the first call on a not-yet-finalized
session closes a present closer exactly once; and when the only recorded
condition is end-of-input (the closer, if any, closing cleanly), every
call returns no error. -/
theorem done_idempotent_close_once (r : Reader) (h : r.done = false) :
    ((r.Done.1.Done).2 = r.Done.2)
    ∧ (r.Done.1.closeCount = r.closeCount + (if r.closer.isSome then 1 else 0))
    ∧ ((r.Done.1.Done).1.closeCount = r.Done.1.closeCount)
    ∧ (r.err = some .eof → (r.closer = none ∨ r.closer = some none) →
        r.Done.2 = none ∧ (r.Done.1.Done).2 = none) := by
  rw [Done_of_not_done r h]
  have hdone : (Reader.closeStep { r with done := true }).done = true := by
    rw [closeStep_done]
  rw [Done_of_done _ hdone]
  refine ⟨rfl, ?_, rfl, ?_⟩
  · rw [closeStep_closeCount]
  · intro he hc
    have := closeStep_err_clean { r with done := true } (Or.inr he) hc
    have hnone : (Reader.closeStep { r with done := true }).nonEOFError = none := by
      rcases this with h1 | h1 <;> simp [Reader.nonEOFError, h1]
    exact ⟨hnone, hnone⟩

/-- C4 witness: a finalizable session that has reached end-of-input with
a cleanly closing closer: both `Done` calls return no error, and the
closer is closed exactly once. -/
theorem done_idempotent_close_once_witness :
    let r : Reader := { rows := [], err := some .eof, closer := some none }
    ((r.Done.1.Done).2 = r.Done.2)
    ∧ (r.Done.1.closeCount = r.closeCount + (if r.closer.isSome then 1 else 0))
    ∧ ((r.Done.1.Done).1.closeCount = r.Done.1.closeCount)
    ∧ (r.Done.2 = none ∧ (r.Done.1.Done).2 = none) := by
  have h := done_idempotent_close_once
    { rows := [], err := some .eof, closer := some none } rfl
  exact ⟨h.1, h.2.1, h.2.2.1, h.2.2.2 rfl (Or.inr rfl)⟩

/-- C10: a nil-valued entry in `Option.Decoders` is treated as absent by
`parseStructTag`: a field tagged with that encoding falls back to the
predefined base decoders, and when the name is not a predefined one the
single error `Encoding "<name>" is not defined` is recorded — in
particular no signature-validation message is produced for the nil
entry. -/
theorem nil_decoder_entry_treated_absent (d : List (String × Option GoAny))
    (enc nm : String) (t : GoType) (fieldIdx : Nat) (acc : TagAcc)
    (hnil : alistGet d enc = some none) (henc : enc ≠ "") :
    (∀ pre c, predefinedDecoders enc = some pre → pre t = some c →
      parseStructTag { decoders := some d }
          { fname := nm, ftype := t, tagIndex := "0", tagEnc := enc } fieldIdx acc =
        { acc with converters := acc.converters ++ [c],
                   idxMap := alistInsert acc.idxMap 0 fieldIdx })
    ∧ (predefinedDecoders enc = none →
      parseStructTag { decoders := some d }
          { fname := nm, ftype := t, tagIndex := "0", tagEnc := enc } fieldIdx acc =
        { acc with tagErrors := acc.tagErrors ++
            ["Encoding " ++ goQuote enc ++ " is not defined"] }) := by
  have hpt : parsedIndexTag "0" = some 0 := by decide
  constructor
  · intro pre c hpre hc
    unfold parseStructTag parseStructTagEnc parseStructTagPre parseStructTagFinish
    simp only [hnil, hpre, hc, henc, hpt]
    rw [if_neg (by simp), if_neg (by simp [henc]), if_pos henc]
    simp [hpt]
  · intro hpre
    unfold parseStructTag parseStructTagEnc parseStructTagPre parseStructTagFinish
    simp only [hnil, hpre, henc]
    rw [if_neg (by simp), if_neg (by simp [henc]), if_pos henc]
    simp

/-- C10 witness: a nil `hex` entry still resolves an `int` field through
the predefined `hex` decoder (no error, the converter decoding `"10"` to
16 is appended, and the field is index-bound at column 0); a nil entry
under an unknown name produces exactly the "not defined" error. -/
theorem nil_decoder_entry_treated_absent_witness :
    ((parseStructTag { decoders := some [("hex", none)] }
        { fname := "A", ftype := .ofKind .int, tagIndex := "0", tagEnc := "hex" }
        0 {}).tagErrors = [])
    ∧ ((parseStructTag { decoders := some [("hex", none)] }
        { fname := "A", ftype := .ofKind .int, tagIndex := "0", tagEnc := "hex" }
        0 {}).idxMap = [(0, 0)])
    ∧ (((parseStructTag { decoders := some [("hex", none)] }
        { fname := "A", ftype := .ofKind .int, tagIndex := "0", tagEnc := "hex" }
        0 {}).converters.map fun c => c "10") = [.ok (.intV 16)])
    ∧ ((parseStructTag { decoders := some [("myenc", none)] }
        { fname := "A", ftype := .ofKind .int, tagIndex := "0", tagEnc := "myenc" }
        0 {}).tagErrors = ["Encoding \"myenc\" is not defined"])
    ∧ ((parseStructTag { decoders := some [("myenc", none)] }
        { fname := "A", ftype := .ofKind .int, tagIndex := "0", tagEnc := "myenc" }
        0 {}).converters.length = 0) := by
  have h1 := (nil_decoder_entry_treated_absent [("hex", none)] "hex" "A"
    (.ofKind .int) 0 {} rfl (by decide)).1
    (fun t => createIntConverter t 16) _ rfl rfl
  have h2 := (nil_decoder_entry_treated_absent [("myenc", none)] "myenc" "A"
    (.ofKind .int) 0 {} rfl (by decide)).2 rfl
  refine ⟨?_, ?_, ?_, ?_, ?_⟩
  · rw [h1]
  · rw [h1]; rfl
  · rw [h1]; decide
  · rw [h2]; decide
  · rw [h2]; rfl

set_option maxRecDepth 16384 in
/-- C9: custom-converter analysis collects every applicable signature
violation, not just the first: for every converter value, encoding name
and field, `validateCustomConverter` appends exactly the applicable
violations of the specification's taxonomy (in declaration order of the
checks) and succeeds exactly when there are none; and on the four-field
shape of `TestCustomDecoder_wrongType` the whole analysis reports all
seven problems as one error, newline-joined in field declaration order. -/
theorem analysis_collects_all_violations :
    (∀ conv enc field errs,
      validateCustomConverter conv enc field errs =
        (errs ++ specSignatureViolations conv enc field,
          (specSignatureViolations conv enc field).isEmpty))
    ∧ ((exceptErr (newStructDecoder optWrongEncs fieldsWrongEncs)).map GoErr.errorString =
        some (String.intercalate "\n" wrongEncsExpectedErrors)) := by
  constructor
  · intro conv enc field errs
    cases conv with
    | nonFunc t => rfl
    | func f =>
      unfold validateCustomConverter specSignatureViolations
      dsimp only
      split_ifs <;> simp
  · decide

theorem readLine_proj (r : Reader) (line : List String) (rest : List (List String))
    (h : r.rows = line :: rest) :
    (r.readLine).err = r.err ∧ (r.readLine).cur = line ∧ (r.readLine).rows = rest
    ∧ (r.readLine).closer = r.closer ∧ (r.readLine).done = r.done := by
  unfold Reader.readLine
  rw [h]
  exact ⟨rfl, rfl, rfl, rfl, rfl⟩

theorem loopIterF_retErr_stops (dec : RowDecoder) (g : DecodedRec → Option GoErr)
    (brow : List String) (post : List (List String)) (e0 : GoErr)
    (hb : (dec.decode brow).2 = none)
    (hgb : g (dec.decode brow).1 = some e0) :
    ∀ (pre : List (List String)) (fuel : Nat) (r : Reader) (handed : List DecodedRec),
    r.err = none → r.rows = pre ++ brow :: post →
    (∀ row ∈ pre, (dec.decode row).2 = none ∧ g (dec.decode row).1 = none) →
    r.rows.length < fuel →
    (loopIterF dec (.retErr g) fuel r handed).2
        = handed ++ pre.map (fun row => (dec.decode row).1) ++ [(dec.decode brow).1]
    ∧ (loopIterF dec (.retErr g) fuel r handed).1.err
        = (if e0 = .brk then none else some e0)
    ∧ (loopIterF dec (.retErr g) fuel r handed).1.closer = r.closer
    ∧ (loopIterF dec (.retErr g) fuel r handed).1.done = r.done := by
  intro pre
  induction pre with
  | nil =>
    intro fuel r handed herr hrows hpre hfuel
    cases fuel with
    | zero => exact absurd hfuel (Nat.not_lt_zero _)
    | succ fuel =>
      rw [List.nil_append] at hrows
      have hproj := readLine_proj r brow post hrows
      have hstep : loopIterF dec (.retErr g) (fuel + 1) r handed
          = (if e0 = .brk then r.readLine else { r.readLine with err := some e0 },
             handed ++ [(dec.decode brow).1]) := by
        conv_lhs => unfold loopIterF
        dsimp only
        rw [if_neg (by rw [hproj.1, herr]; simp)]
        rw [hproj.2.1, hb]
        dsimp only
        rw [hgb]
      rw [hstep]
      refine ⟨by simp, ?_, ?_, ?_⟩
      · by_cases he0 : e0 = .brk
        · rw [if_pos he0, if_pos he0, hproj.1, herr]
        · rw [if_neg he0, if_neg he0]
      · by_cases he0 : e0 = .brk
        · rw [if_pos he0]
          exact hproj.2.2.2.1
        · rw [if_neg he0]
          exact hproj.2.2.2.1
      · by_cases he0 : e0 = .brk
        · rw [if_pos he0]
          exact hproj.2.2.2.2
        · rw [if_neg he0]
          exact hproj.2.2.2.2
  | cons row pre ih =>
    intro fuel r handed herr hrows hpre hfuel
    cases fuel with
    | zero => exact absurd hfuel (Nat.not_lt_zero _)
    | succ fuel =>
      rw [List.cons_append] at hrows
      have hproj := readLine_proj r row (pre ++ brow :: post) hrows
      have hd := hpre row (List.mem_cons_self row pre)
      have hstep : loopIterF dec (.retErr g) (fuel + 1) r handed
          = loopIterF dec (.retErr g) fuel r.readLine
              (handed ++ [(dec.decode row).1]) := by
        conv_lhs => unfold loopIterF
        dsimp only
        rw [if_neg (by rw [hproj.1, herr]; simp)]
        rw [hproj.2.1, hd.1]
        dsimp only
        rw [hd.2]
      rw [hstep]
      have hlen : (r.readLine).rows.length < fuel := by
        have h1 : (r.readLine).rows.length + 1 = r.rows.length := by
          rw [hproj.2.2.1, hrows]
          simp
        omega
      have ihh := ih fuel r.readLine (handed ++ [(dec.decode row).1])
        (hproj.1.trans herr) hproj.2.2.1
        (fun row2 hm => hpre row2 (List.mem_cons_of_mem row hm)) hlen
      refine ⟨?_, ihh.2.1, ?_, ?_⟩
      · rw [ihh.1]
        simp
      · rw [ihh.2.2.1, hproj.2.2.2.1]
      · rw [ihh.2.2.2, hproj.2.2.2.2]

theorem loopIterF_retBool_stops (dec : RowDecoder) (f : DecodedRec → Bool)
    (brow : List String) (post : List (List String))
    (hb : (dec.decode brow).2 = none)
    (hf : f (dec.decode brow).1 = false) :
    ∀ (pre : List (List String)) (fuel : Nat) (r : Reader) (handed : List DecodedRec),
    r.err = none → r.rows = pre ++ brow :: post →
    (∀ row ∈ pre, (dec.decode row).2 = none ∧ f (dec.decode row).1 = true) →
    r.rows.length < fuel →
    (loopIterF dec (.retBool f) fuel r handed).2
        = handed ++ pre.map (fun row => (dec.decode row).1) ++ [(dec.decode brow).1]
    ∧ (loopIterF dec (.retBool f) fuel r handed).1.err = none
    ∧ (loopIterF dec (.retBool f) fuel r handed).1.closer = r.closer
    ∧ (loopIterF dec (.retBool f) fuel r handed).1.done = r.done := by
  intro pre
  induction pre with
  | nil =>
    intro fuel r handed herr hrows hpre hfuel
    cases fuel with
    | zero => exact absurd hfuel (Nat.not_lt_zero _)
    | succ fuel =>
      rw [List.nil_append] at hrows
      have hproj := readLine_proj r brow post hrows
      have hstep : loopIterF dec (.retBool f) (fuel + 1) r handed
          = (r.readLine, handed ++ [(dec.decode brow).1]) := by
        conv_lhs => unfold loopIterF
        dsimp only
        rw [if_neg (by rw [hproj.1, herr]; simp)]
        rw [hproj.2.1, hb]
        dsimp only
        rw [if_neg (by rw [hf]; simp)]
      rw [hstep]
      exact ⟨by simp, hproj.1.trans herr, hproj.2.2.2.1, hproj.2.2.2.2⟩
  | cons row pre ih =>
    intro fuel r handed herr hrows hpre hfuel
    cases fuel with
    | zero => exact absurd hfuel (Nat.not_lt_zero _)
    | succ fuel =>
      rw [List.cons_append] at hrows
      have hproj := readLine_proj r row (pre ++ brow :: post) hrows
      have hd := hpre row (List.mem_cons_self row pre)
      have hstep : loopIterF dec (.retBool f) (fuel + 1) r handed
          = loopIterF dec (.retBool f) fuel r.readLine
              (handed ++ [(dec.decode row).1]) := by
        conv_lhs => unfold loopIterF
        dsimp only
        rw [if_neg (by rw [hproj.1, herr]; simp)]
        rw [hproj.2.1, hd.1]
        dsimp only
        rw [if_pos hd.2]
      rw [hstep]
      have hlen : (r.readLine).rows.length < fuel := by
        have h1 : (r.readLine).rows.length + 1 = r.rows.length := by
          rw [hproj.2.2.1, hrows]
          simp
        omega
      have ihh := ih fuel r.readLine (handed ++ [(dec.decode row).1])
        (hproj.1.trans herr) hproj.2.2.1
        (fun row2 hm => hpre row2 (List.mem_cons_of_mem row hm)) hlen
      refine ⟨?_, ihh.2.1, ?_, ?_⟩
      · rw [ihh.1]
        simp
      · rw [ihh.2.2.1, hproj.2.2.2.1]
      · rw [ihh.2.2.2, hproj.2.2.2.2]

theorem finishDone_clean (r1 : Reader) (handed : List DecodedRec)
    (hdone : r1.done = false) (herr : r1.err = none ∨ r1.err = some .eof)
    (hclose : r1.closer = none ∨ r1.closer = some none) :
    (finishDone r1 handed).2.1 = none ∧ (finishDone r1 handed).2.2 = handed
    ∧ ((finishDone r1 handed).1.Done).2 = none := by
  have hcs := closeStep_err_clean { r1 with done := true } herr hclose
  have hne : (Reader.closeStep { r1 with done := true }).nonEOFError = none := by
    rcases hcs with h1 | h1 <;> simp [Reader.nonEOFError, h1]
  unfold finishDone
  rw [Done_of_not_done r1 hdone]
  dsimp only
  refine ⟨hne, rfl, ?_⟩
  rw [Done_of_done _ (by rw [closeStep_done])]
  exact hne

theorem finishDone_nonEOF (r1 : Reader) (handed : List DecodedRec) (e : GoErr)
    (hdone : r1.done = false) (he : r1.err = some e) (hne : e ≠ .eof) :
    (finishDone r1 handed).2.1 = some e ∧ (finishDone r1 handed).2.2 = handed := by
  have hk := closeStep_err_keep { r1 with done := true } e he hne
  have hne2 : (Reader.closeStep { r1 with done := true }).nonEOFError = some e := by
    unfold Reader.nonEOFError
    rw [hk]
    cases e with
    | eof => exact absurd rfl hne
    | brk => rfl
    | msg s => rfl
  unfold finishDone
  rw [Done_of_not_done r1 hdone]
  dsimp only
  exact ⟨hne2, rfl⟩

/-- C6 counterexample: two finalization effects contradict the claim.
With an owned closer whose `Close` fails, a `Break`-returning visitor does
not make `Loop` return no error: the close error recorded by the deferred
`Done` is surfaced. And a visitor returning `io.EOF` — a non-nil error
that is not the `Break` sentinel — stops iteration, but `Loop` returns no
error rather than surfacing it, because `Done` maps `io.EOF` to no
error. -/
theorem loop_finalization_counterexample :
    ((ReaderLoop (.slice (.ofKind .int)) (.retErr fun _ => some .brk)
        (NewReadCloser [["10", "20"]] {} (some (.msg "Close Error")))).2.1
      = some (.msg "Close Error"))
    ∧ ((ReaderLoop (.slice (.ofKind .int)) (.retErr fun _ => some .eof)
        (NewReader [["10", "20"]] {})).2.1 = none) :=
  ⟨by decide, by decide⟩

/-- C6 (amended): on a clean session (no pending error, not finalized,
owned closer absent or closing cleanly) with a resolved headerless
decoding plan, a visitor that returns the `Break` sentinel (or the
boolean `false`) on some record stops iteration after that record, `Loop`
returns no error and a subsequent `Done` reports no error; a visitor
returning any non-nil error other than `Break` and `io.EOF` stops
iteration and that error is surfaced; and in every case the records
handed to the visitor are exactly the records decoded before and
including the stopping record, unaffected by the stop. -/
theorem loop_stop_semantics (t : TargetShape) (dec : RowDecoder) (r : Reader)
    (pre : List (List String)) (brow : List String) (post : List (List String))
    (g gE : DecodedRec → Option GoErr) (fB : DecodedRec → Bool) (e : GoErr)
    (hdec : newDecoder r.opt t = .ok dec) (hnh : dec.needHeader = false)
    (herr : r.err = none) (hdone : r.done = false)
    (hclose : r.closer = none ∨ r.closer = some none)
    (hrows : r.rows = pre ++ brow :: post)
    (hpre : ∀ row ∈ pre, (dec.decode row).2 = none)
    (hb : (dec.decode brow).2 = none)
    (hgpre : ∀ row ∈ pre, g (dec.decode row).1 = none)
    (hgb : g (dec.decode brow).1 = some .brk)
    (hfpre : ∀ row ∈ pre, fB (dec.decode row).1 = true)
    (hfb : fB (dec.decode brow).1 = false)
    (hgEpre : ∀ row ∈ pre, gE (dec.decode row).1 = none)
    (hgEb : gE (dec.decode brow).1 = some e)
    (hebrk : e ≠ .brk) (heof : e ≠ .eof) :
    ((ReaderLoop t (.retErr g) r).2.2
        = pre.map (fun row => (dec.decode row).1) ++ [(dec.decode brow).1]
      ∧ (ReaderLoop t (.retErr g) r).2.1 = none
      ∧ ((ReaderLoop t (.retErr g) r).1.Done).2 = none)
    ∧ ((ReaderLoop t (.retBool fB) r).2.2
        = pre.map (fun row => (dec.decode row).1) ++ [(dec.decode brow).1]
      ∧ (ReaderLoop t (.retBool fB) r).2.1 = none
      ∧ ((ReaderLoop t (.retBool fB) r).1.Done).2 = none)
    ∧ ((ReaderLoop t (.retErr gE) r).2.2
        = pre.map (fun row => (dec.decode row).1) ++ [(dec.decode brow).1]
      ∧ (ReaderLoop t (.retErr gE) r).2.1 = some e) := by
  have hse : ReaderLoop.isEmptyStruct t = false := by
    cases t with
    | slice et => rfl
    | strukt fs =>
      cases fs with
      | nil => simp [newDecoder, newStructDecoder, Except.map] at hdec
      | cons f fs2 => simp [ReaderLoop.isEmptyStruct]
  have hL : ∀ body, ReaderLoop t body r
      = finishDone (loopIterF dec body (r.rows.length + 1) r []).1
          (loopIterF dec body (r.rows.length + 1) r []).2 := by
    intro body
    unfold ReaderLoop
    rw [if_neg (by rw [herr]; simp), if_neg (by rw [hse]; simp), hdec]
    dsimp only
    rw [if_neg (by rw [hnh]; simp)]
    rfl
  have h1 := loopIterF_retErr_stops dec g brow post .brk hb hgb pre
    (r.rows.length + 1) r [] herr hrows
    (fun row hm => ⟨hpre row hm, hgpre row hm⟩) (Nat.lt_succ_self _)
  have h2 := loopIterF_retBool_stops dec fB brow post hb hfb pre
    (r.rows.length + 1) r [] herr hrows
    (fun row hm => ⟨hpre row hm, hfpre row hm⟩) (Nat.lt_succ_self _)
  have h3 := loopIterF_retErr_stops dec gE brow post e hb hgEb pre
    (r.rows.length + 1) r [] herr hrows
    (fun row hm => ⟨hpre row hm, hgEpre row hm⟩) (Nat.lt_succ_self _)
  rw [hL (.retErr g), hL (.retBool fB), hL (.retErr gE)]
  have herr1 : (loopIterF dec (.retErr g) (r.rows.length + 1) r []).1.err = none := by
    rw [h1.2.1, if_pos rfl]
  have hclose1 :
      (loopIterF dec (.retErr g) (r.rows.length + 1) r []).1.closer = none
      ∨ (loopIterF dec (.retErr g) (r.rows.length + 1) r []).1.closer = some none := by
    rcases hclose with h | h
    · exact Or.inl (h1.2.2.1.trans h)
    · exact Or.inr (h1.2.2.1.trans h)
  have hfd1 := finishDone_clean
    (loopIterF dec (.retErr g) (r.rows.length + 1) r []).1
    (loopIterF dec (.retErr g) (r.rows.length + 1) r []).2
    (h1.2.2.2.trans hdone) (Or.inl herr1) hclose1
  have hclose2 :
      (loopIterF dec (.retBool fB) (r.rows.length + 1) r []).1.closer = none
      ∨ (loopIterF dec (.retBool fB) (r.rows.length + 1) r []).1.closer = some none := by
    rcases hclose with h | h
    · exact Or.inl (h2.2.2.1.trans h)
    · exact Or.inr (h2.2.2.1.trans h)
  have hfd2 := finishDone_clean
    (loopIterF dec (.retBool fB) (r.rows.length + 1) r []).1
    (loopIterF dec (.retBool fB) (r.rows.length + 1) r []).2
    (h2.2.2.2.trans hdone) (Or.inl h2.2.1) hclose2
  have herr3 : (loopIterF dec (.retErr gE) (r.rows.length + 1) r []).1.err = some e := by
    rw [h3.2.1, if_neg hebrk]
  have hfd3 := finishDone_nonEOF
    (loopIterF dec (.retErr gE) (r.rows.length + 1) r []).1
    (loopIterF dec (.retErr gE) (r.rows.length + 1) r []).2
    e (h3.2.2.2.trans hdone) herr3 heof
  exact ⟨⟨hfd1.2.1.trans (h1.1.trans (List.nil_append _)), hfd1.1, hfd1.2.2⟩,
    ⟨hfd2.2.1.trans (h2.1.trans (List.nil_append _)), hfd2.1, hfd2.2.2⟩,
    ⟨hfd3.2.trans (h3.1.trans (List.nil_append _)), hfd3.1⟩⟩

/-- C6 witness: a three-row session through a cleanly closing closer with
a slice-of-int plan; the visitor stops on the second record. All three
stop modes hand over exactly the first two records; `Break` and `false`
leave `Loop` and the subsequent `Done` with no error, the non-`Break`
visitor error is surfaced. -/
theorem loop_stop_semantics_witness :
    ((ReaderLoop (.slice (.ofKind .int))
        (.retErr fun rec =>
          if rec = .slice [.intV 30, .intV 40] then some .brk else none)
        (NewReadCloser [["10", "20"], ["30", "40"], ["50", "60"]] {} none)).2.2
      = [.slice [.intV 10, .intV 20], .slice [.intV 30, .intV 40]]
      ∧ (ReaderLoop (.slice (.ofKind .int))
        (.retErr fun rec =>
          if rec = .slice [.intV 30, .intV 40] then some .brk else none)
        (NewReadCloser [["10", "20"], ["30", "40"], ["50", "60"]] {} none)).2.1 = none
      ∧ ((ReaderLoop (.slice (.ofKind .int))
        (.retErr fun rec =>
          if rec = .slice [.intV 30, .intV 40] then some .brk else none)
        (NewReadCloser [["10", "20"], ["30", "40"], ["50", "60"]] {} none)).1.Done).2
          = none)
    ∧ ((ReaderLoop (.slice (.ofKind .int))
        (.retBool fun rec =>
          if rec = .slice [.intV 30, .intV 40] then false else true)
        (NewReadCloser [["10", "20"], ["30", "40"], ["50", "60"]] {} none)).2.2
      = [.slice [.intV 10, .intV 20], .slice [.intV 30, .intV 40]]
      ∧ (ReaderLoop (.slice (.ofKind .int))
        (.retBool fun rec =>
          if rec = .slice [.intV 30, .intV 40] then false else true)
        (NewReadCloser [["10", "20"], ["30", "40"], ["50", "60"]] {} none)).2.1 = none
      ∧ ((ReaderLoop (.slice (.ofKind .int))
        (.retBool fun rec =>
          if rec = .slice [.intV 30, .intV 40] then false else true)
        (NewReadCloser [["10", "20"], ["30", "40"], ["50", "60"]] {} none)).1.Done).2
          = none)
    ∧ ((ReaderLoop (.slice (.ofKind .int))
        (.retErr fun rec =>
          if rec = .slice [.intV 30, .intV 40] then some (.msg "visitor error") else none)
        (NewReadCloser [["10", "20"], ["30", "40"], ["50", "60"]] {} none)).2.2
      = [.slice [.intV 10, .intV 20], .slice [.intV 30, .intV 40]]
      ∧ (ReaderLoop (.slice (.ofKind .int))
        (.retErr fun rec =>
          if rec = .slice [.intV 30, .intV 40] then some (.msg "visitor error") else none)
        (NewReadCloser [["10", "20"], ["30", "40"], ["50", "60"]] {} none)).2.1
          = some (.msg "visitor error")) := by
  have h := loop_stop_semantics (.slice (.ofKind .int)) _
    (NewReadCloser [["10", "20"], ["30", "40"], ["50", "60"]] {} none)
    [["10", "20"]] ["30", "40"] [["50", "60"]]
    (fun rec => if rec = .slice [.intV 30, .intV 40] then some .brk else none)
    (fun rec => if rec = .slice [.intV 30, .intV 40] then some (.msg "visitor error") else none)
    (fun rec => if rec = .slice [.intV 30, .intV 40] then false else true)
    (.msg "visitor error")
    rfl rfl rfl rfl (Or.inr rfl) rfl
    (by decide) (by decide) (by decide) (by decide) (by decide) (by decide)
    (by decide) (by decide) (by decide) (by decide)
  exact ⟨⟨h.1.1.trans (by decide), h.1.2.1, h.1.2.2⟩,
    ⟨h.2.1.1.trans (by decide), h.2.1.2.1, h.2.1.2.2⟩,
    ⟨h.2.2.1.trans (by decide), h.2.2.2⟩⟩

end EasyCsv

